import Mathlib

/-!
# SSD1306 driver (ssd1306-pico): a shallow embedding and its verified properties

The C sources `ssd1306.c` / `ssd1306.h` are embedded as Lean functions.

* `uint8_t` / `uint16_t` values are `Nat`s, truncated with an explicit `% 256` / `% 65536`
  wherever the C code converts to the narrower type.
* `int16_t` and `int` values are `Int`s; conversions to `int16_t` go through `wrap16`.
* The heap buffer behind `display->buffer` is `Option (List Nat)` (`none` is the null pointer).
* Every function that touches memory returns `Except Fault _`: an access outside the
  object it addresses is undefined behaviour in C and is reported as a `Fault`.
* The I2C transport (`i2c_write_blocking`, Pico SDK) is an external collaborator; it is modelled
  as a log of the writes issued plus an arbitrary response function.
* The glyph table `font_8x5` (`font.h`) is not part of the sources and is a parameter `font`.
-/

namespace SSD1306

/-! ## Data model -/

/-- Undefined behaviour (and fuel exhaustion of the one unbounded loop) made explicit. -/
inductive Fault where
  | null_deref
  | out_of_bounds
  | bad_shift
  | out_of_fuel
  deriving DecidableEq, Repr

/-- The struct `ssd1306_t` of `ssd1306.h`. -/
structure ssd1306_t where
  height : Nat
  width : Nat
  addr : Nat
  i2c : Nat
  buffer : Option (List Nat)
  external_vcc : Bool
  deriving DecidableEq, Repr

/-- Conversion of an `int` value to `uint8_t`. -/
def u8 (v : Int) : Nat := (v % 256).toNat

/-- Conversion of an `int` value to `uint16_t`. -/
def u16 (v : Int) : Nat := (v % 65536).toNat

/-- Conversion of an `int` value to `int16_t` (two's complement wrap-around). -/
def wrap16 (v : Int) : Int := (v + 32768) % 65536 - 32768

/-- The expression `~(1 << bit)` on a 32-bit `int`, as its two's complement bit pattern. -/
def not_shl1 (bit : Nat) : Nat := 0xFFFFFFFF ^^^ (1 <<< bit)

/-! ## Command values (ssd1306.h:13-29) -/

def SET_CONTRAST : Nat := 0x81
def SET_ENTIRE_ON : Nat := 0xA4
def SET_NORM_INV : Nat := 0xA6
def SET_DISP : Nat := 0xAE
def SET_MEM_ADDR : Nat := 0x20
def SET_COL_ADDR : Nat := 0x21
def SET_PAGE_ADDR : Nat := 0x22
def SET_DISP_START_LINE : Nat := 0x40
def SET_SEG_REMAP : Nat := 0xA0
def SET_MUX_RATIO : Nat := 0xA8
def SET_COM_OUT_DIR : Nat := 0xC0
def SET_DISP_OFFSET : Nat := 0xD3
def SET_COM_PIN_CFG : Nat := 0xDA
def SET_DISP_CLK_DIV : Nat := 0xD5
def SET_PRECHARGE : Nat := 0xD9
def SET_VCOM_DESEL : Nat := 0xDB
def SET_CHARGE_PUMP : Nat := 0x8D

/-! ## Control flow helpers -/

/-- A counting loop `for (i = lo; i < hi; i++) body(i)` over a state `σ`; the body may fault. -/
def for_loop {σ : Type} (lo hi : Nat) (body : σ → Nat → Except Fault σ) (s : σ) :
    Except Fault σ :=
  (List.range' lo (hi - lo)).foldlM body s

/-! ## Bus transport -/

/-- One call of the Pico SDK function `i2c_write_blocking`: the I2C instance, the device
address, the `len` bytes handed over and the `nostop` flag. -/
structure I2CWrite where
  i2c : Nat
  addr : Nat
  bytes : List Nat
  nostop : Bool
  deriving DecidableEq, Repr

/-- The behaviour of the transport: what `i2c_write_blocking` returns (the number of bytes
written, or a negative error code) for a write, given the writes issued before it. -/
abbrev Transport := List I2CWrite → I2CWrite → Int

/-- The error code `PICO_ERROR_GENERIC` of the Pico SDK. -/
def PICO_ERROR_GENERIC : Int := -1

/-- The external function `i2c_write_blocking(i2c, addr, src, len, nostop)`: the write is
appended to the log of the bus and the transport's result is returned. -/
def i2c_write_blocking (tr : Transport) (log : List I2CWrite) (i2c addr : Nat) (src : List Nat)
    (len : Nat) (nostop : Bool) : List I2CWrite × Int :=
  let w : I2CWrite := { i2c := i2c, addr := addr, bytes := src.take len, nostop := nostop }
  (log ++ [w], tr log w)

/-- The function `ssd1306_send_command` (ssd1306.c:75-78); the result of the write is
discarded. Returns the bus log and the display structure after the call. -/
def ssd1306_send_command (tr : Transport) (log : List I2CWrite) (display : ssd1306_t)
    (command : Nat) : List I2CWrite × ssd1306_t :=
  let msg := [0x00, command]
  ((i2c_write_blocking tr log display.i2c display.addr msg 2 false).1, display)

/-- The function `ssd1306_send_data` (ssd1306.c:81-91): `data` is the object behind the pointer
argument, `size` the `uint16_t` argument. -/
def ssd1306_send_data (tr : Transport) (log : List I2CWrite) (display : ssd1306_t)
    (data : Option (List Nat)) (size : Nat) : Except Fault (List I2CWrite × ssd1306_t) :=
  match data with
  | none => .error .null_deref
  | some bytes =>
    if size ≤ bytes.length then
      let buffer := 0x40 :: bytes.take size
      .ok ((i2c_write_blocking tr log display.i2c display.addr buffer (size + 1) false).1, display)
    else
      .error .out_of_bounds

/-- The function `ssd1306_update` (ssd1306.c:94-107). -/
def ssd1306_update (tr : Transport) (log : List I2CWrite) (display : ssd1306_t) :
    Except Fault (List I2CWrite × ssd1306_t) :=
  let (log, display) := ssd1306_send_command tr log display 0x21
  let (log, display) := ssd1306_send_command tr log display 0
  let (log, display) := ssd1306_send_command tr log display (u8 ((display.width : Int) - 1))
  let (log, display) := ssd1306_send_command tr log display 0x22
  let (log, display) := ssd1306_send_command tr log display 0
  let (log, display) :=
    ssd1306_send_command tr log display (u8 (((display.height / 8 : Nat) : Int) - 1))
  ssd1306_send_data tr log display display.buffer (u16 (display.width * display.height / 8 : Nat))

/-! ## Framebuffer -/

/-- The function `ssd1306_draw_pixel` (ssd1306.c:110-128). The arguments `x`, `y` are the
`uint8_t` parameter values. -/
def ssd1306_draw_pixel (display : ssd1306_t) (x y : Nat) (on_ : Bool) : Except Fault ssd1306_t :=
  if x ≥ display.width ∨ y ≥ display.height then
    .ok display
  else
    let byte_index := ((y / 8) * display.width + x) % 65536
    let bit_position := (y % 8) % 256
    match display.buffer with
    | none => .error .null_deref
    | some buf =>
      if byte_index < buf.length then
        if on_ then
          .ok { display with
                buffer := some (buf.set byte_index ((buf.getD byte_index 0 ||| (1 <<< bit_position)) % 256)) }
        else
          .ok { display with
                buffer := some (buf.set byte_index ((buf.getD byte_index 0 &&& not_shl1 bit_position) % 256)) }
      else
        .error .out_of_bounds

/-- The function `ssd1306_clear_display` (ssd1306.c:131-133): `memset` of the first
`width*height/8` bytes of the buffer. -/
def ssd1306_clear_display (display : ssd1306_t) : Except Fault ssd1306_t :=
  let n := display.width * display.height / 8
  match display.buffer with
  | none => .error .null_deref
  | some buf =>
    if n ≤ buf.length then
      .ok { display with buffer := some (List.replicate n 0 ++ buf.drop n) }
    else
      .error .out_of_bounds

/-- The function `ssd1306_clear_rectangle` (ssd1306.c:135-141); the loop bounds `x1 - x0` and
`y1 - y0` are `int` differences and may be negative. -/
def ssd1306_clear_rectangle (display : ssd1306_t) (x0 y0 x1 y1 : Nat) : Except Fault ssd1306_t :=
  for_loop 0 ((x1 : Int) - x0).toNat (fun d x =>
    for_loop 0 ((y1 : Int) - y0).toNat (fun d y =>
      ssd1306_draw_pixel d (x % 256) (y % 256) false) d) display

/-! ## Drawing engine -/

/-- The loop `while (1) { ... }` of `ssd1306_draw_line` (ssd1306.c:150-165), with `fuel`
bounding the number of iterations. All variables are `int16_t`. -/
def draw_line_loop (x1 y1 dx dy sx sy : Int) :
    Nat → ssd1306_t → Int → Int → Int → Except Fault ssd1306_t
  | 0, _, _, _, _ => .error .out_of_fuel
  | fuel + 1, display, x0, y0, err =>
    match ssd1306_draw_pixel display (u8 x0) (u8 y0) true with
    | .error e => .error e
    | .ok display =>
      if x0 = x1 ∧ y0 = y1 then
        .ok display
      else
        let e2 := wrap16 (2 * err)
        let err_a := if e2 > -dy then wrap16 (err - dy) else err
        let x0_a := if e2 > -dy then wrap16 (x0 + sx) else x0
        let err_b := if e2 < dx then wrap16 (err_a + dx) else err_a
        let y0_b := if e2 < dx then wrap16 (y0 + sy) else y0
        draw_line_loop x1 y1 dx dy sx sy fuel display x0_a y0_b err_b

/-- The function `ssd1306_draw_line` (ssd1306.c:143-166); `x0 y0 x1 y1` are the `int16_t`
parameter values, `fuel` bounds the iterations of the loop. -/
def ssd1306_draw_line (fuel : Nat) (display : ssd1306_t) (x0 y0 x1 y1 : Int) :
    Except Fault ssd1306_t :=
  let dx := wrap16 (Int.natAbs (x1 - x0))
  let dy := wrap16 (Int.natAbs (y1 - y0))
  let sx : Int := if x0 < x1 then 1 else -1
  let sy : Int := if y0 < y1 then 1 else -1
  let err := wrap16 (dx - dy)
  draw_line_loop x1 y1 dx dy sx sy fuel display x0 y0 err

/-- The function `ssd1306_draw_empty_rectangle` (ssd1306.c:168-175); each of the four lines
gets `fuel` iterations. -/
def ssd1306_draw_empty_rectangle (fuel : Nat) (display : ssd1306_t) (x0 y0 x1 y1 : Nat) :
    Except Fault ssd1306_t := do
  let display ← ssd1306_draw_line fuel display x0 y0 x1 y0
  let display ← ssd1306_draw_line fuel display x0 y1 x1 y1
  let display ← ssd1306_draw_line fuel display x0 y0 x0 y1
  ssd1306_draw_line fuel display x1 y0 x1 y1

/-- The function `ssd1306_draw_filled_rectangle` (ssd1306.c:177-196). -/
def ssd1306_draw_filled_rectangle (display : ssd1306_t) (x0 y0 x1 y1 : Nat) :
    Except Fault ssd1306_t :=
  let xa := if x1 < x0 then x1 else x0
  let xb := if x1 < x0 then x0 else x1
  let ya := if y1 < y0 then y1 else y0
  let yb := if y1 < y0 then y0 else y1
  for_loop xa xb (fun d x =>
    for_loop ya yb (fun d y =>
      ssd1306_draw_pixel d (x % 256) (y % 256) true) d) display

/-- A read `font_8x5[i]` of the glyph table. -/
def font_read (font : List Nat) (i : Nat) : Except Fault Nat :=
  match font[i]? with
  | some v => .ok v
  | none => .error .out_of_bounds

/-- The function `ssd1306_draw_char` (ssd1306.c:198-216). The glyph table `font_8x5` of `font.h`
is the parameter `font`; `c` is the character code (`char` is unsigned on the target). -/
def ssd1306_draw_char (font : List Nat) (display : ssd1306_t) (c x y : Nat) :
    Except Fault ssd1306_t := do
  let first ← font_read font 3
  if c < first then pure display else
  let last ← font_read font 4
  if c > last then pure display else
  let w ← font_read font 1
  let char_width := w % 256
  let h ← font_read font 0
  let char_height := h % 256
  let index := u16 (5 + ((c : Int) - 32) * char_width)
  for_loop 0 char_width (fun d col => do
    let v ← font_read font (index + col)
    let column_data := v % 256
    for_loop 0 char_height (fun d row =>
      if row ≥ 31 then
        .error .bad_shift
      else if column_data &&& (1 <<< row) ≠ 0 then
        ssd1306_draw_pixel d ((x + col) % 256) ((y + row) % 256) true
      else
        ssd1306_draw_pixel d ((x + col) % 256) ((y + row) % 256) false) d) display

/-- The function `ssd1306_draw_string` (ssd1306.c:218-224). The text is the list of its
characters; the end of the list (or a zero byte) is the terminating NUL. -/
def ssd1306_draw_string (font : List Nat) :
    ssd1306_t → List Nat → Nat → Nat → Except Fault ssd1306_t
  | display, [], _, _ => .ok display
  | display, c :: text, x, y =>
    if c = 0 then
      .ok display
    else do
      let display ← ssd1306_draw_char font display c x y
      let w ← font_read font 1
      ssd1306_draw_string font display text ((x + w + 1) % 256) y

/-! ## Protocol layer -/

/-- The array `cmds` of `ssd1306_init` (ssd1306.c:23-54), as `uint8_t` values. -/
def init_cmds (display : ssd1306_t) (height width : Nat) : List Nat :=
  [ SET_DISP,
    SET_DISP_CLK_DIV,
    0x80,
    SET_MUX_RATIO,
    u8 ((height : Int) - 1),
    SET_DISP_OFFSET,
    0x00,
    SET_DISP_START_LINE,
    SET_CHARGE_PUMP,
    if display.external_vcc then 0x10 else 0x14,
    SET_SEG_REMAP ||| 0x01,
    SET_COM_OUT_DIR ||| 0x08,
    SET_COM_PIN_CFG,
    if width > 2 * height then 0x02 else 0x12,
    SET_CONTRAST,
    0xff,
    SET_PRECHARGE,
    if display.external_vcc then 0x22 else 0xF1,
    SET_VCOM_DESEL,
    0x30,
    SET_ENTIRE_ON,
    SET_NORM_INV,
    SET_DISP ||| 0x01,
    SET_MEM_ADDR,
    0x00 ]

/-- The loop `for (i = 0; i < sizeof(cmds); ++i) ssd1306_send_command(display, cmds[i])`. -/
def send_commands (tr : Transport) (log : List I2CWrite) (display : ssd1306_t) (cmds : List Nat) :
    List I2CWrite × ssd1306_t :=
  cmds.foldl (fun s c => ssd1306_send_command tr s.1 s.2 c) (log, display)

/-- The function `ssd1306_init` (ssd1306.c:8-64). `malloc` is the allocator: for a size it
returns a block or `none` (the null pointer); `display` is the structure as it is before the
call. The parameter `_external_vcc` is not read by the body. -/
def ssd1306_init (tr : Transport) (malloc : Nat → Option (List Nat)) (log : List I2CWrite)
    (display : ssd1306_t) (i2c height width addr : Nat) (_external_vcc : Bool) :
    Except Fault (List I2CWrite × ssd1306_t) :=
  let display := { display with addr := addr }
  let display := { display with i2c := i2c }
  let display := { display with height := height }
  let display := { display with width := width }
  let display := { display with buffer := malloc (height * width / 8) }
  let cmds := init_cmds display height width
  let (log, display) := send_commands tr log display cmds
  match ssd1306_clear_display display with
  | .error e => .error e
  | .ok display => ssd1306_update tr log display

/-- The function `ssd1306_deinit` (ssd1306.c:67-72). -/
def ssd1306_deinit (display : ssd1306_t) : ssd1306_t :=
  match display.buffer with
  | some _ => { display with buffer := none }
  | none => display

/-- The function `ssd1306_set_contrast` (ssd1306.c:226-231). -/
def ssd1306_set_contrast (tr : Transport) (log : List I2CWrite) (display : ssd1306_t)
    (value : Nat) : List I2CWrite × ssd1306_t :=
  let (log, display) := ssd1306_send_command tr log display SET_CONTRAST
  ssd1306_send_command tr log display value

/-- The function `ssd1306_invert_display` (ssd1306.c:233-239). -/
def ssd1306_invert_display (tr : Transport) (log : List I2CWrite) (display : ssd1306_t)
    (invert : Bool) : List I2CWrite × ssd1306_t :=
  if invert then
    ssd1306_send_command tr log display (SET_NORM_INV ||| 0x01)
  else
    ssd1306_send_command tr log display SET_NORM_INV

/-- The function `ssd1306_power_on` (ssd1306.c:241-243). -/
def ssd1306_power_on (tr : Transport) (log : List I2CWrite) (display : ssd1306_t) :
    List I2CWrite × ssd1306_t :=
  ssd1306_send_command tr log display SET_DISP

/-- The function `ssd1306_power_off` (ssd1306.c:245-247). -/
def ssd1306_power_off (tr : Transport) (log : List I2CWrite) (display : ssd1306_t) :
    List I2CWrite × ssd1306_t :=
  ssd1306_send_command tr log display (SET_DISP ||| 0x01)

/-! ## Observations used by the theorems -/

/-- Read-back of a pixel through the addressing scheme of `ssd1306_draw_pixel`:
bit `y % 8` of byte `(y / 8) * width + x`. -/
def pixel (display : ssd1306_t) (x y : Nat) : Bool :=
  match display.buffer with
  | none => false
  | some buf => (buf.getD ((y / 8) * display.width + x) 0).testBit (y % 8)

/-- A display whose fields fit their C types and whose buffer has the size `ssd1306_init`
allocates, with `height` a multiple of 8. -/
def WF (display : ssd1306_t) : Prop :=
  display.width < 256 ∧ display.height < 256 ∧ display.height % 8 = 0 ∧
  ∃ buf, display.buffer = some buf ∧ buf.length = display.width * display.height / 8 ∧
    ∀ b ∈ buf, b < 256

/-- The display `d2` is `d1` with possibly different buffer contents: same configuration, and
still well formed. -/
def SameConfig (d1 d2 : ssd1306_t) : Prop :=
  WF d2 ∧ d2.width = d1.width ∧ d2.height = d1.height ∧ d2.addr = d1.addr ∧ d2.i2c = d1.i2c ∧
  d2.external_vcc = d1.external_vcc

/-- The glyph width declared in the header of the table, as the driver reads it
(`font_8x5[1]`). -/
def glyph_width (font : List Nat) : Nat := font.getD 1 0 % 256

/-- The glyph height declared in the header of the table, as the driver reads it
(`font_8x5[0]`). -/
def glyph_height (font : List Nat) : Nat := font.getD 0 0 % 256

/-- Column byte `col` of the glyph of `c`, at the place the driver indexes:
`font_8x5[5 + (c - 32) * width + col]`. -/
def glyph_column (font : List Nat) (c col : Nat) : Nat :=
  font.getD (5 + (c - 32) * glyph_width font + col) 0 % 256

/-- A glyph table the driver can read without leaving it: a 5-byte header, a supported range
that starts at 32 or above and ends below 256, the glyphs of all characters from 32 to the last
supported one stored from offset 5 on, and a glyph height the shift `1 << row` can take. -/
def FontOK (font : List Nat) : Prop :=
  5 ≤ font.length ∧ 32 ≤ font.getD 3 0 ∧ font.getD 4 0 < 256 ∧
  5 + (font.getD 4 0 - 32 + 1) * glyph_width font ≤ font.length ∧ glyph_height font ≤ 31

/-- The body of the inner loop of `ssd1306_draw_char` (ssd1306.c:209-213) for the column byte
of the glyph of `c`. -/
def glyph_cell (font : List Nat) (c x y : Nat) (d : ssd1306_t) (col row : Nat) :
    Except Fault ssd1306_t :=
  if row ≥ 31 then
    .error .bad_shift
  else if glyph_column font c col &&& (1 <<< row) ≠ 0 then
    ssd1306_draw_pixel d ((x + col) % 256) ((y + row) % 256) true
  else
    ssd1306_draw_pixel d ((x + col) % 256) ((y + row) % 256) false

/-- The number of characters of a text before its terminating NUL (`strlen`). -/
def strlen : List Nat → Nat
  | [] => 0
  | c :: text => if c = 0 then 0 else strlen text + 1

/-- The drawing the specification describes for `drawString`: character number `k` of the
text is drawn by `ssd1306_draw_char` at the cursor `x + k * (glyph_width + 1)`, the cursor
never wrapping. -/
def draw_string_unwrapped (font : List Nat) :
    ssd1306_t → List Nat → Nat → Nat → Nat → Except Fault ssd1306_t
  | display, [], _, _, _ => .ok display
  | display, c :: text, x, y, k =>
    if c = 0 then
      .ok display
    else
      match ssd1306_draw_char font display c (x + k * (glyph_width font + 1)) y with
      | .error e => .error e
      | .ok display => draw_string_unwrapped font display text x y (k + 1)

/-- The message `ssd1306_send_command` puts on the bus for a command byte. -/
def command_message (display : ssd1306_t) (command : Nat) : I2CWrite :=
  { i2c := display.i2c, addr := display.addr, bytes := [0x00, command], nostop := false }

/-- The message `ssd1306_send_data` puts on the bus for a block of data bytes. -/
def data_message (display : ssd1306_t) (data : List Nat) : I2CWrite :=
  { i2c := display.i2c, addr := display.addr, bytes := 0x40 :: data, nostop := false }

/-! ## Concrete inputs used by witnesses and counterexamples -/

/-- A 16x8 display with an all-off buffer. -/
def demo_display : ssd1306_t :=
  { height := 8, width := 16, addr := 0x3C, i2c := 1,
    buffer := some (List.replicate 16 0), external_vcc := false }

/-- A transport that reports failure for every write. -/
def failing_transport : Transport := fun _ _ => PICO_ERROR_GENERIC

/-- A transport that reports every write as complete (all bytes written). -/
def working_transport : Transport := fun _ w => w.bytes.length

/-- A glyph table in the layout the driver reads (header: height 8, width 5, a third byte,
first character 32, last character 33) holding the glyphs of the space and of `!`. -/
def demo_font : List Nat :=
  [8, 5, 1, 32, 33, 0x00, 0x00, 0x00, 0x00, 0x00, 0x00, 0x00, 0x5f, 0x00, 0x00]

/-- A 16x8 display with every pixel on. -/
def demo_display_on : ssd1306_t :=
  { height := 8, width := 16, addr := 0x3C, i2c := 1,
    buffer := some (List.replicate 16 255), external_vcc := false }

/-- The sequence of points that the loop of `ssd1306_draw_line` (ssd1306.c:150-165) hands to
`ssd1306_draw_pixel`, in order: the same loop as `draw_line_loop`, recording the current point
where the source plots it. `none` when `fuel` iterations do not reach the end point. -/
def line_points_loop (x1 y1 dx dy sx sy : Int) : Nat → Int → Int → Int → Option (List (Int × Int))
  | 0, _, _, _ => none
  | fuel + 1, x0, y0, err =>
    if x0 = x1 ∧ y0 = y1 then
      some [(x0, y0)]
    else
      let e2 := wrap16 (2 * err)
      let err_a := if e2 > -dy then wrap16 (err - dy) else err
      let x0_a := if e2 > -dy then wrap16 (x0 + sx) else x0
      let err_b := if e2 < dx then wrap16 (err_a + dx) else err_a
      let y0_b := if e2 < dx then wrap16 (y0 + sy) else y0
      match line_points_loop x1 y1 dx dy sx sy fuel x0_a y0_b err_b with
      | none => none
      | some pts => some ((x0, y0) :: pts)

/-- The sequence of points rasterized by `ssd1306_draw_line` for the `int16_t` end points
`(x0, y0)`, `(x1, y1)`: the set-up of ssd1306.c:144-148 followed by `line_points_loop`. -/
def line_points (fuel : Nat) (x0 y0 x1 y1 : Int) : Option (List (Int × Int)) :=
  let dx := wrap16 (Int.natAbs (x1 - x0))
  let dy := wrap16 (Int.natAbs (y1 - y0))
  let sx : Int := if x0 < x1 then 1 else -1
  let sy : Int := if y0 < y1 then 1 else -1
  let err := wrap16 (dx - dy)
  line_points_loop x1 y1 dx dy sx sy fuel x0 y0 err

/-- The calls `ssd1306_draw_pixel(display, x, y, true)` for a sequence of `int16_t` points, in
order. -/
def plot_points (display : ssd1306_t) (pts : List (Int × Int)) : Except Fault ssd1306_t :=
  pts.foldlM (fun d p => ssd1306_draw_pixel d (u8 p.1) (u8 p.2) true) display

/-- Two consecutive rasterized points of a line whose major axis is x: x advances by the step
`sx`, y stays or advances by `sy`. -/
def XStep (sx sy : Int) (p q : Int × Int) : Prop :=
  q.1 = p.1 + sx ∧ (q.2 = p.2 ∨ q.2 = p.2 + sy)

/-- Two consecutive rasterized points of a line whose major axis is y: y advances by the step
`sy`, x stays or advances by `sx`. -/
def YStep (sx sy : Int) (p q : Int × Int) : Prop :=
  q.2 = p.2 + sy ∧ (q.1 = p.1 ∨ q.1 = p.1 + sx)

/-- A 16x12 display (height not a multiple of 8) with the `16*12/8 = 24` buffer bytes that
`ssd1306_init` would allocate. -/
def demo_display_12 : ssd1306_t :=
  { height := 12, width := 16, addr := 0x3C, i2c := 1,
    buffer := some (List.replicate 24 0), external_vcc := false }

/-! ## Bit-level lemmas -/

theorem testBit_set_bit (b k j : Nat) (hb : b < 256) (hk : k < 8) :
    ((b ||| (1 <<< k)) % 256).testBit j = if j = k then true else b.testBit j := by
  have h256 : (256 : Nat) = 2 ^ 8 := by norm_num
  rw [h256, Nat.testBit_mod_two_pow, Nat.testBit_or, Nat.testBit_shiftLeft]
  by_cases hj : j = k
  · subst hj
    simp [hk]
  · simp only [hj, if_false]
    by_cases hj8 : j < 8
    · by_cases hge : j ≥ k
      · have : j - k ≠ 0 := by omega
        simp [hj8, hge, Nat.testBit_one_eq_true_iff_self_eq_zero, this]
      · simp [hj8, hge]
    · have : b.testBit j = false := by
        apply Nat.testBit_lt_two_pow
        calc b < 256 := hb
          _ = 2 ^ 8 := h256
          _ ≤ 2 ^ j := Nat.pow_le_pow_right (by norm_num) (by omega)
      simp [hj8, this]

theorem testBit_clear_bit (b k j : Nat) (hb : b < 256) (hk : k < 8) :
    ((b &&& not_shl1 k) % 256).testBit j = if j = k then false else b.testBit j := by
  have h256 : (256 : Nat) = 2 ^ 8 := by norm_num
  have hff : (0xFFFFFFFF : Nat) = 2 ^ 32 - 1 := by norm_num
  unfold not_shl1
  rw [h256, Nat.testBit_mod_two_pow, Nat.testBit_and, Nat.testBit_xor, Nat.testBit_shiftLeft,
    hff, Nat.testBit_two_pow_sub_one]
  by_cases hj : j = k
  · subst hj
    have : j < 32 := by omega
    simp [hk, this]
  · simp only [hj, if_false]
    by_cases hj8 : j < 8
    · have h32 : j < 32 := by omega
      by_cases hge : j ≥ k
      · have h1 : Nat.testBit 1 (j - k) = false := by
          cases h : Nat.testBit 1 (j - k)
          · rfl
          · rw [Nat.testBit_one_eq_true_iff_self_eq_zero] at h
            omega
        simp [hj8, h32, hge, h1]
      · simp [hj8, h32, hge]
    · have : b.testBit j = false := by
        apply Nat.testBit_lt_two_pow
        calc b < 256 := hb
          _ = 2 ^ 8 := h256
          _ ≤ 2 ^ j := Nat.pow_le_pow_right (by norm_num) (by omega)
      simp [hj8, this]

/-! ## Addressing lemmas and `ssd1306_draw_pixel` -/

theorem byte_index_lt (w h x y : Nat) (hx : x < w) (hy : y < h) (h8 : h % 8 = 0) :
    (y / 8) * w + x < w * h / 8 := by
  obtain ⟨k, rfl⟩ : ∃ k, h = 8 * k := ⟨h / 8, by omega⟩
  have hyk : y / 8 + 1 ≤ k := by omega
  have e : w * (8 * k) / 8 = k * w := by
    rw [show w * (8 * k) = 8 * (k * w) by ring]
    exact Nat.mul_div_cancel_left _ (by norm_num)
  rw [e]
  calc (y / 8) * w + x < (y / 8) * w + w := by omega
    _ = (y / 8 + 1) * w := by ring
    _ ≤ k * w := Nat.mul_le_mul_right w hyk

theorem byte_index_inj (w a x a' x' : Nat) (hx : x < w) (hx' : x' < w)
    (h : a * w + x = a' * w + x') : a = a' ∧ x = x' := by
  have hw : 0 < w := by omega
  have h1 : (a * w + x) / w = a := by
    rw [Nat.add_comm, Nat.add_mul_div_right _ _ hw, Nat.div_eq_of_lt hx, Nat.zero_add]
  have h2 : (a' * w + x') / w = a' := by
    rw [Nat.add_comm, Nat.add_mul_div_right _ _ hw, Nat.div_eq_of_lt hx', Nat.zero_add]
  have ha : a = a' := by rw [← h1, ← h2, h]
  subst ha
  exact ⟨rfl, by omega⟩

theorem byte_index_small (w h x y : Nat) (hw : w < 256) (hh : h < 256) (hx : x < w) (hy : y < h) :
    (y / 8) * w + x < 65536 := by
  have h1 : y / 8 ≤ 31 := by omega
  have h2 : (y / 8) * w ≤ 31 * w := Nat.mul_le_mul_right w h1
  omega

theorem getD_set_eq (l : List Nat) (i j v : Nat) (hi : i < l.length) :
    (l.set i v).getD j 0 = if j = i then v else l.getD j 0 := by
  simp only [List.getD_eq_getElem?_getD, List.getElem?_set]
  by_cases h : i = j
  · subst h; simp [hi]
  · have : ¬ j = i := fun e => h e.symm
    simp [h, this]

theorem mem_set_lt (l : List Nat) (i v : Nat) (hv : v < 256) (hl : ∀ b ∈ l, b < 256) :
    ∀ b ∈ l.set i v, b < 256 := by
  intro b hb
  rcases List.mem_or_eq_of_mem_set hb with h | h
  · exact hl b h
  · rw [h]; exact hv

theorem getD_lt (l : List Nat) (i : Nat) (hl : ∀ b ∈ l, b < 256) : l.getD i 0 < 256 := by
  rw [List.getD_eq_getElem?_getD]
  cases h : l[i]? with
  | none => simp
  | some v =>
    simp only [Option.getD_some]
    exact hl v (List.getElem?_mem h)


/-- The buffer produced by `ssd1306_draw_pixel` at an in-bounds coordinate. -/
theorem draw_pixel_in_bounds (d : ssd1306_t) (buf : List Nat) (x y : Nat) (on_ : Bool)
    (hw : d.width < 256) (hh : d.height < 256) (h8 : d.height % 8 = 0)
    (hb : d.buffer = some buf) (hlen : buf.length = d.width * d.height / 8)
    (hx : x < d.width) (hy : y < d.height) :
    ssd1306_draw_pixel d x y on_ = .ok { d with buffer := some (buf.set ((y / 8) * d.width + x)
      (if on_ then (buf.getD ((y / 8) * d.width + x) 0 ||| (1 <<< (y % 8))) % 256
       else (buf.getD ((y / 8) * d.width + x) 0 &&& not_shl1 (y % 8)) % 256)) } := by
  have hi := byte_index_lt d.width d.height x y hx hy h8
  have hs := byte_index_small d.width d.height x y hw hh hx hy
  have hm : ((y / 8) * d.width + x) % 65536 = (y / 8) * d.width + x := Nat.mod_eq_of_lt hs
  have hb8 : (y % 8) % 256 = y % 8 := by omega
  have hnot : ¬ (x ≥ d.width ∨ y ≥ d.height) := by omega
  unfold ssd1306_draw_pixel
  simp only [hnot, if_false, hb, hm, hb8, hlen, hi, if_true]
  cases on_ <;> simp

theorem draw_pixel_out_of_bounds (d : ssd1306_t) (x y : Nat) (on_ : Bool)
    (h : d.width ≤ x ∨ d.height ≤ y) : ssd1306_draw_pixel d x y on_ = .ok d := by
  unfold ssd1306_draw_pixel
  simp [h]


theorem draw_pixel_bits (d : ssd1306_t) (buf : List Nat) (x y : Nat) (on_ : Bool)
    (hw : d.width < 256) (hh : d.height < 256) (h8 : d.height % 8 = 0)
    (hb : d.buffer = some buf) (hlen : buf.length = d.width * d.height / 8)
    (hbytes : ∀ b ∈ buf, b < 256) (hx : x < d.width) (hy : y < d.height) :
    ∃ buf', ssd1306_draw_pixel d x y on_ = .ok { d with buffer := some buf' } ∧
      buf'.length = buf.length ∧ (∀ b ∈ buf', b < 256) ∧
      ∀ i j, (buf'.getD i 0).testBit j =
        if i = (y / 8) * d.width + x ∧ j = y % 8 then on_ else (buf.getD i 0).testBit j := by
  have hi : (y / 8) * d.width + x < buf.length := by
    rw [hlen]; exact byte_index_lt d.width d.height x y hx hy h8
  have hk : y % 8 < 8 := Nat.mod_lt _ (by norm_num)
  have hold := getD_lt buf ((y / 8) * d.width + x) hbytes
  refine ⟨_, draw_pixel_in_bounds d buf x y on_ hw hh h8 hb hlen hx hy, by simp, ?_, ?_⟩
  · apply mem_set_lt _ _ _ _ hbytes
    split <;> exact Nat.mod_lt _ (by norm_num)
  · intro i j
    rw [getD_set_eq _ _ _ _ hi]
    by_cases hii : i = (y / 8) * d.width + x
    · subst hii
      cases on_
      · simp only [Bool.false_eq_true, if_false, if_true, true_and]
        rw [testBit_clear_bit _ _ _ hold hk]
      · simp only [if_true, true_and]
        rw [testBit_set_bit _ _ _ hold hk]
    · simp [hii]

theorem draw_pixel_pixel (d : ssd1306_t) (x y : Nat) (on_ : Bool) (hd : WF d) :
    ∃ d', ssd1306_draw_pixel d x y on_ = .ok d' ∧ SameConfig d d' ∧
      ∀ px py, px < d.width → py < d.height →
        pixel d' px py = if px = x ∧ py = y then on_ else pixel d px py := by
  obtain ⟨hw, hh, h8, buf, hb, hlen, hbytes⟩ := hd
  by_cases hin : x < d.width ∧ y < d.height
  · obtain ⟨hx, hy⟩ := hin
    obtain ⟨buf', hrun, hlen', hbytes', hbits⟩ :=
      draw_pixel_bits d buf x y on_ hw hh h8 hb hlen hbytes hx hy
    refine ⟨_, hrun, ⟨⟨hw, hh, h8, buf', rfl, by rw [hlen', hlen], hbytes'⟩, rfl, rfl, rfl, rfl, rfl⟩, ?_⟩
    intro px py hpx hpy
    simp only [pixel, hb]
    rw [hbits]
    by_cases hp : px = x ∧ py = y
    · obtain ⟨rfl, rfl⟩ := hp
      simp
    · have : ¬ ((py / 8) * d.width + px = (y / 8) * d.width + x ∧ py % 8 = y % 8) := by
        rintro ⟨e1, e2⟩
        obtain ⟨e3, e4⟩ := byte_index_inj d.width _ _ _ _ hpx hx e1
        exact hp ⟨e4, by omega⟩
      simp [hp, this]
  · have hout : d.width ≤ x ∨ d.height ≤ y := by omega
    refine ⟨d, draw_pixel_out_of_bounds d x y on_ hout,
      ⟨⟨hw, hh, h8, buf, hb, hlen, hbytes⟩, rfl, rfl, rfl, rfl, rfl⟩, ?_⟩
    intro px py hpx hpy
    have : ¬ (px = x ∧ py = y) := by omega
    simp [this]

/-- C1: for a display with a buffer of `width*height/8` bytes and `height` a multiple
of 8, `ssd1306_draw_pixel` at an out-of-bounds coordinate returns the display unchanged, and at an
in-bounds coordinate it sets bit `y % 8` of byte `(y / 8) * width + x` to `on` and keeps every
other bit of every byte, so that the pixel read back equals `on`. -/
theorem draw_pixel_spec (d : ssd1306_t) (buf : List Nat) (x y : Nat) (on_ : Bool)
    (hw : d.width < 256) (hh : d.height < 256) (h8 : d.height % 8 = 0)
    (hb : d.buffer = some buf) (hlen : buf.length = d.width * d.height / 8)
    (hbytes : ∀ b ∈ buf, b < 256) :
    (d.width ≤ x ∨ d.height ≤ y → ssd1306_draw_pixel d x y on_ = .ok d) ∧
    (x < d.width → y < d.height →
      ∃ buf', ssd1306_draw_pixel d x y on_ = .ok { d with buffer := some buf' } ∧
        buf'.length = buf.length ∧
        (∀ i j, (buf'.getD i 0).testBit j =
          if i = (y / 8) * d.width + x ∧ j = y % 8 then on_ else (buf.getD i 0).testBit j) ∧
        pixel { d with buffer := some buf' } x y = on_) := by
  refine ⟨draw_pixel_out_of_bounds d x y on_, ?_⟩
  intro hx hy
  obtain ⟨buf', hrun, hlen', _, hbits⟩ :=
    draw_pixel_bits d buf x y on_ hw hh h8 hb hlen hbytes hx hy
  refine ⟨buf', hrun, hlen', hbits, ?_⟩
  simp only [pixel]
  rw [hbits]
  simp

/-- An instance of the theorem on `ssd1306_draw_pixel`: pixel `(3, 5)` of the 16x8 display. -/
theorem draw_pixel_spec_witness :
    (demo_display.width < 256 ∧ demo_display.height < 256 ∧ demo_display.height % 8 = 0 ∧
      demo_display.buffer = some (List.replicate 16 0) ∧
      (List.replicate 16 0).length = demo_display.width * demo_display.height / 8 ∧
      ∀ b ∈ List.replicate 16 0, b < 256) ∧
    ((demo_display.width ≤ 3 ∨ demo_display.height ≤ 5 →
      ssd1306_draw_pixel demo_display 3 5 true = .ok demo_display) ∧
    (3 < demo_display.width → 5 < demo_display.height →
      ∃ buf', ssd1306_draw_pixel demo_display 3 5 true
          = .ok { demo_display with buffer := some buf' } ∧
        buf'.length = (List.replicate 16 0).length ∧
        (∀ i j, (buf'.getD i 0).testBit j =
          if i = (5 / 8) * demo_display.width + 3 ∧ j = 5 % 8 then true
          else ((List.replicate 16 0).getD i 0).testBit j) ∧
        pixel { demo_display with buffer := some buf' } 3 5 = true)) :=
  ⟨⟨by decide, by decide, by decide, rfl, by decide, by decide⟩,
    draw_pixel_spec demo_display (List.replicate 16 0) 3 5 true (by decide) (by decide)
      (by decide) rfl (by decide) (by decide)⟩

/-! ## Counting loops and painted boxes -/

theorem for_loop_stop {σ : Type} (lo hi : Nat) (body : σ → Nat → Except Fault σ) (s : σ)
    (h : hi ≤ lo) : for_loop lo hi body s = .ok s := by
  unfold for_loop
  have : hi - lo = 0 := by omega
  rw [this]
  rfl

theorem for_loop_step {σ : Type} (lo hi : Nat) (body : σ → Nat → Except Fault σ) (s : σ)
    (h : lo < hi) :
    for_loop lo hi body s =
      match body s lo with
      | .error e => .error e
      | .ok s' => for_loop (lo + 1) hi body s' := by
  unfold for_loop
  have : hi - lo = (hi - (lo + 1)) + 1 := by omega
  rw [this, List.range'_succ, List.foldlM_cons]
  cases body s lo <;> rfl

/-- Invariant rule for counting loops: the loop does not fault and establishes the invariant
at the final index. -/
theorem for_loop_inv {σ : Type} (I : Nat → σ → Prop) (body : σ → Nat → Except Fault σ)
    (hi : Nat) :
    ∀ (n lo : Nat) (s : σ), hi - lo = n → I lo s →
      (∀ k s, lo ≤ k → k < hi → I k s → ∃ s', body s k = .ok s' ∧ I (k + 1) s') →
      ∃ s', for_loop lo hi body s = .ok s' ∧ I (max lo hi) s' := by
  intro n
  induction n with
  | zero =>
    intro lo s hn h0 _
    have hle : hi ≤ lo := by omega
    refine ⟨s, for_loop_stop lo hi body s hle, ?_⟩
    rw [Nat.max_eq_left hle]
    exact h0
  | succ n ih =>
    intro lo s hn h0 hstep
    have hlt : lo < hi := by omega
    obtain ⟨s1, hb, h1⟩ := hstep lo s (Nat.le_refl _) hlt h0
    obtain ⟨s2, hrun, h2⟩ := ih (lo + 1) s1 (by omega) h1
      (fun k s hk hk' hI => hstep k s (by omega) hk' hI)
    refine ⟨s2, ?_, ?_⟩
    · rw [for_loop_step lo hi body s hlt, hb]
      exact hrun
    · have e1 : max (lo + 1) hi = hi := Nat.max_eq_right (by omega)
      have e2 : max lo hi = hi := Nat.max_eq_right (by omega)
      rw [e2]
      rw [e1] at h2
      exact h2

theorem SameConfig.refl (d : ssd1306_t) (hd : WF d) : SameConfig d d :=
  ⟨hd, rfl, rfl, rfl, rfl, rfl⟩

theorem SameConfig.trans {d1 d2 d3 : ssd1306_t} (h12 : SameConfig d1 d2)
    (h23 : SameConfig d2 d3) : SameConfig d1 d3 := by
  obtain ⟨_, a1, a2, a3, a4, a5⟩ := h12
  obtain ⟨w, b1, b2, b3, b4, b5⟩ := h23
  exact ⟨w, by rw [b1, a1], by rw [b2, a2], by rw [b3, a3], by rw [b4, a4], by rw [b5, a5]⟩

/-- A nested counting loop whose body plots `(x, y)` with value `V x y` repaints exactly the
box `[xlo, xhi) × [ylo, yhi)`. -/
theorem paint_loop (V : Nat → Nat → Bool) (body : ssd1306_t → Nat → Nat → Except Fault ssd1306_t)
    (xlo xhi ylo yhi : Nat)
    (hbody : ∀ d k l, xlo ≤ k → k < xhi → ylo ≤ l → l < yhi →
      body d k l = ssd1306_draw_pixel d k l (V k l))
    (d : ssd1306_t) (hd : WF d) :
    ∃ d', for_loop xlo xhi (fun d x => for_loop ylo yhi (fun d y => body d x y) d) d = .ok d' ∧
      SameConfig d d' ∧
      ∀ px py, px < d.width → py < d.height →
        pixel d' px py =
          if xlo ≤ px ∧ px < xhi ∧ ylo ≤ py ∧ py < yhi then V px py else pixel d px py := by
  -- inner loop: column `x` painted for rows below `l`
  have inner : ∀ (x : Nat) (d1 : ssd1306_t), xlo ≤ x → x < xhi → SameConfig d d1 →
      ∃ d2, for_loop ylo yhi (fun d y => body d x y) d1 = .ok d2 ∧ SameConfig d d2 ∧
        ∀ px py, px < d.width → py < d.height →
          pixel d2 px py =
            if px = x ∧ ylo ≤ py ∧ py < yhi then V px py else pixel d1 px py := by
    intro x d1 hx1 hx2 hc1
    obtain ⟨d2, hrun, hc2, hpix⟩ := for_loop_inv
      (fun l d2 => SameConfig d d2 ∧ ∀ px py, px < d.width → py < d.height →
        pixel d2 px py = if px = x ∧ ylo ≤ py ∧ py < l then V px py else pixel d1 px py)
      (fun d y => body d x y) yhi (yhi - ylo) ylo d1 rfl
      ⟨hc1, fun px py _ _ => by
        have : ¬ (px = x ∧ ylo ≤ py ∧ py < ylo) := by omega
        rw [if_neg this]⟩
      (by
        intro l d2 hl1 hl2 ⟨hc2, hp2⟩
        obtain ⟨d3, hrun, hc3, hp3⟩ := draw_pixel_pixel d2 x l (V x l) hc2.1
        refine ⟨d3, (hbody d2 x l hx1 hx2 hl1 hl2).trans hrun, hc2.trans hc3, ?_⟩
        intro px py hpx hpy
        rw [hp3 px py (by rw [hc2.2.1]; exact hpx) (by rw [hc2.2.2.1]; exact hpy), hp2 px py hpx hpy]
        by_cases e : px = x ∧ py = l
        · obtain ⟨rfl, rfl⟩ := e
          have : px = px ∧ ylo ≤ py ∧ py < py + 1 := ⟨rfl, hl1, by omega⟩
          rw [if_pos ⟨rfl, rfl⟩, if_pos this]
        · by_cases e2 : px = x ∧ ylo ≤ py ∧ py < l
          · have : px = x ∧ ylo ≤ py ∧ py < l + 1 := ⟨e2.1, e2.2.1, by omega⟩
            rw [if_neg e, if_pos e2, if_pos this]
          · have : ¬ (px = x ∧ ylo ≤ py ∧ py < l + 1) := by omega
            rw [if_neg e, if_neg e2, if_neg this])
    refine ⟨d2, hrun, hc2, ?_⟩
    intro px py hpx hpy
    rw [hpix px py hpx hpy]
    by_cases hle : ylo ≤ yhi
    · rw [Nat.max_eq_right hle]
    · have e1 : ¬ (px = x ∧ ylo ≤ py ∧ py < max ylo yhi) := by
        rw [Nat.max_eq_left (by omega)]; omega
      have e2 : ¬ (px = x ∧ ylo ≤ py ∧ py < yhi) := by omega
      rw [if_neg e1, if_neg e2]
  obtain ⟨d2, hrun, hc2, hpix⟩ := for_loop_inv
    (fun k d2 => SameConfig d d2 ∧ ∀ px py, px < d.width → py < d.height →
      pixel d2 px py =
        if xlo ≤ px ∧ px < k ∧ ylo ≤ py ∧ py < yhi then V px py else pixel d px py)
    (fun d x => for_loop ylo yhi (fun d y => body d x y) d) xhi (xhi - xlo) xlo d rfl
    ⟨SameConfig.refl d hd, fun px py _ _ => by
      have : ¬ (xlo ≤ px ∧ px < xlo ∧ ylo ≤ py ∧ py < yhi) := by omega
      rw [if_neg this]⟩
    (by
      intro k d2 hk1 hk2 ⟨hc2, hp2⟩
      obtain ⟨d3, hrun, hc3, hp3⟩ := inner k d2 hk1 hk2 hc2
      refine ⟨d3, hrun, hc3, ?_⟩
      intro px py hpx hpy
      rw [hp3 px py hpx hpy, hp2 px py hpx hpy]
      by_cases e : px = k ∧ ylo ≤ py ∧ py < yhi
      · have : xlo ≤ px ∧ px < k + 1 ∧ ylo ≤ py ∧ py < yhi := by omega
        rw [if_pos e, if_pos this]
      · by_cases e2 : xlo ≤ px ∧ px < k ∧ ylo ≤ py ∧ py < yhi
        · have : xlo ≤ px ∧ px < k + 1 ∧ ylo ≤ py ∧ py < yhi := by omega
          rw [if_neg e, if_pos e2, if_pos this]
        · have : ¬ (xlo ≤ px ∧ px < k + 1 ∧ ylo ≤ py ∧ py < yhi) := by omega
          rw [if_neg e, if_neg e2, if_neg this])
  refine ⟨d2, hrun, hc2, ?_⟩
  intro px py hpx hpy
  rw [hpix px py hpx hpy]
  by_cases hle : xlo ≤ xhi
  · rw [Nat.max_eq_right hle]
  · have e1 : ¬ (xlo ≤ px ∧ px < max xlo xhi ∧ ylo ≤ py ∧ py < yhi) := by
      rw [Nat.max_eq_left (by omega)]; omega
    have e2 : ¬ (xlo ≤ px ∧ px < xhi ∧ ylo ≤ py ∧ py < yhi) := by omega
    rw [if_neg e1, if_neg e2]


/-- C2: `ssd1306_draw_filled_rectangle` orders the corners and turns on exactly the
in-bounds pixels of the half-open box `[min x0 x1, max x0 x1) × [min y0 y1, max y0 y1)`, every
other pixel keeping its value; in particular on an all-off buffer the call `(2,2,6,6)` leaves
on exactly the 4x4 block `x ∈ [2,6)`, `y ∈ [2,6)`. -/
theorem draw_filled_rectangle_spec (d : ssd1306_t) (x0 y0 x1 y1 : Nat) (hd : WF d)
    (hx0 : x0 < 256) (hy0 : y0 < 256) (hx1 : x1 < 256) (hy1 : y1 < 256) :
    (∃ d', ssd1306_draw_filled_rectangle d x0 y0 x1 y1 = .ok d' ∧ SameConfig d d' ∧
      ∀ px py, px < d.width → py < d.height →
        pixel d' px py =
          if min x0 x1 ≤ px ∧ px < max x0 x1 ∧ min y0 y1 ≤ py ∧ py < max y0 y1 then true
          else pixel d px py) ∧
    ((∀ px py, px < d.width → py < d.height → pixel d px py = false) →
      ∃ d', ssd1306_draw_filled_rectangle d 2 2 6 6 = .ok d' ∧
        ∀ px py, px < d.width → py < d.height →
          (pixel d' px py = true ↔ (2 ≤ px ∧ px < 6 ∧ 2 ≤ py ∧ py < 6))) := by
  have key : ∀ a b a' b' : Nat, a < 256 → b < 256 → a' < 256 → b' < 256 →
      ∃ d', ssd1306_draw_filled_rectangle d a b a' b' = .ok d' ∧ SameConfig d d' ∧
      ∀ px py, px < d.width → py < d.height →
        pixel d' px py =
          if min a a' ≤ px ∧ px < max a a' ∧ min b b' ≤ py ∧ py < max b b' then true
          else pixel d px py := by
    intro a b a' b' ha hb ha' hb'
    have exa : (if a' < a then a' else a) = min a a' := by
      split
      · exact (Nat.min_eq_right (by omega)).symm
      · exact (Nat.min_eq_left (by omega)).symm
    have exb : (if a' < a then a else a') = max a a' := by
      split
      · exact (Nat.max_eq_left (by omega)).symm
      · exact (Nat.max_eq_right (by omega)).symm
    have eya : (if b' < b then b' else b) = min b b' := by
      split
      · exact (Nat.min_eq_right (by omega)).symm
      · exact (Nat.min_eq_left (by omega)).symm
    have eyb : (if b' < b then b else b') = max b b' := by
      split
      · exact (Nat.max_eq_left (by omega)).symm
      · exact (Nat.max_eq_right (by omega)).symm
    have hmx : max a a' < 256 := by rw [← exb]; split <;> assumption
    have hmy : max b b' < 256 := by rw [← eyb]; split <;> assumption
    unfold ssd1306_draw_filled_rectangle
    simp only [exa, exb, eya, eyb]
    exact paint_loop (fun _ _ => true)
      (fun d x y => ssd1306_draw_pixel d (x % 256) (y % 256) true)
      (min a a') (max a a') (min b b') (max b b')
      (by
        intro d' k l _ hk _ hl
        show ssd1306_draw_pixel d' (k % 256) (l % 256) true = _
        rw [Nat.mod_eq_of_lt (by omega), Nat.mod_eq_of_lt (by omega)])
      d hd
  refine ⟨key x0 y0 x1 y1 hx0 hy0 hx1 hy1, ?_⟩
  intro hoff
  obtain ⟨d', hrun, _, hpix⟩ := key 2 2 6 6 (by norm_num) (by norm_num) (by norm_num) (by norm_num)
  refine ⟨d', hrun, ?_⟩
  intro px py hpx hpy
  rw [hpix px py hpx hpy, hoff px py hpx hpy]
  simp

/-! ## Lines and rectangles -/

theorem wrap16_id (v : Int) (h1 : -32768 ≤ v) (h2 : v < 32768) : wrap16 v = v := by
  unfold wrap16
  omega

theorem u8_cast (v : Int) (h1 : 0 ≤ v) (h2 : v < 256) : ((u8 v : Nat) : Int) = v := by
  unfold u8
  rw [Int.toNat_of_nonneg (Int.emod_nonneg _ (by norm_num))]
  exact Int.emod_eq_of_lt h1 h2

/-- One iteration of the loop of `ssd1306_draw_line` away from the end point. -/
theorem draw_line_loop_step (x1 y1 dx dy sx sy : Int) (fuel : Nat) (d d1 : ssd1306_t)
    (x0 y0 err : Int) (hp : ssd1306_draw_pixel d (u8 x0) (u8 y0) true = .ok d1)
    (hne : ¬ (x0 = x1 ∧ y0 = y1)) :
    draw_line_loop x1 y1 dx dy sx sy (fuel + 1) d x0 y0 err =
      draw_line_loop x1 y1 dx dy sx sy fuel d1
        (if wrap16 (2 * err) > -dy then wrap16 (x0 + sx) else x0)
        (if wrap16 (2 * err) < dx then wrap16 (y0 + sy) else y0)
        (if wrap16 (2 * err) < dx then
          wrap16 ((if wrap16 (2 * err) > -dy then wrap16 (err - dy) else err) + dx)
         else (if wrap16 (2 * err) > -dy then wrap16 (err - dy) else err)) := by
  rw [draw_line_loop]
  simp only [hp, if_neg hne]

theorem draw_line_loop_last (x1 y1 dx dy sx sy : Int) (fuel : Nat) (d d1 : ssd1306_t)
    (err : Int) (hp : ssd1306_draw_pixel d (u8 x1) (u8 y1) true = .ok d1) :
    draw_line_loop x1 y1 dx dy sx sy (fuel + 1) d x1 y1 err = .ok d1 := by
  rw [draw_line_loop]
  simp [hp]

/-- The loop of `ssd1306_draw_line` on a horizontal segment, `n` steps away from `x1`. -/
theorem hline_loop (d0 : ssd1306_t) (x1 y D s sy : Int) (hs : s = 1 ∨ s = -1)
    (hx1 : 0 ≤ x1 ∧ x1 < 256) (hy : 0 ≤ y ∧ y < 256) (hD : D < 256) :
    ∀ (n fuel : Nat) (d : ssd1306_t) (x : Int), n < fuel → SameConfig d0 d →
      0 ≤ x → x < 256 → x1 = x + s * n → (n : Int) ≤ D →
      ∃ d', draw_line_loop x1 y D 0 s sy fuel d x y D = .ok d' ∧ SameConfig d0 d' ∧
        ∀ px py, px < d0.width → py < d0.height →
          pixel d' px py =
            if (py : Int) = y ∧ ((x ≤ px ∧ (px : Int) ≤ x1) ∨ (x1 ≤ px ∧ (px : Int) ≤ x)) then true
            else pixel d px py := by
  intro n
  induction n with
  | zero =>
    intro fuel d x hf hc hx0 hx255 hx1n _
    obtain ⟨f, rfl⟩ : ∃ f, fuel = f + 1 := ⟨fuel - 1, by omega⟩
    have hxe : x = x1 := by simp at hx1n; omega
    subst hxe
    obtain ⟨d1, hrun, hc1, hp1⟩ := draw_pixel_pixel d (u8 x) (u8 y) true hc.1
    refine ⟨d1, draw_line_loop_last _ _ _ _ _ _ _ _ _ _ hrun, hc.trans hc1, ?_⟩
    intro px py hpx hpy
    rw [hp1 px py (by rw [hc.2.1]; exact hpx) (by rw [hc.2.2.1]; exact hpy)]
    have ux := u8_cast x hx0 hx255
    have uy := u8_cast y hy.1 hy.2
    by_cases e : px = u8 x ∧ py = u8 y
    · rw [if_pos e, if_pos (by omega)]
    · rw [if_neg e, if_neg (by omega)]
  | succ n ih =>
    intro fuel d x hf hc hx0 hx255 hx1n hnD
    obtain ⟨f, rfl⟩ : ∃ f, fuel = f + 1 := ⟨fuel - 1, by omega⟩
    obtain ⟨d1, hrun, hc1, hp1⟩ := draw_pixel_pixel d (u8 x) (u8 y) true hc.1
    have hxs : 0 ≤ x + s ∧ x + s < 256 ∧ x1 = (x + s) + s * n ∧ x ≠ x1 := by
      rcases hs with rfl | rfl <;> (push_cast at hx1n; omega)
    have hne : ¬ (x = x1 ∧ y = y) := fun h => hxs.2.2.2 h.1
    have hD0 : 0 < D := by push_cast at hnD; omega
    have e2 : wrap16 (2 * D) = 2 * D := wrap16_id _ (by omega) (by omega)
    have c1 : wrap16 (2 * D) > -(0 : Int) := by rw [e2]; omega
    have c2 : ¬ wrap16 (2 * D) < D := by rw [e2]; omega
    have e3 : wrap16 (D - 0) = D := by rw [wrap16_id _ (by omega) (by omega)]; omega
    have e4 : wrap16 (x + s) = x + s := wrap16_id _ (by omega) (by omega)
    rw [draw_line_loop_step _ _ _ _ _ _ _ _ _ _ _ _ hrun hne]
    simp only [if_pos c1, if_neg c2, e3, e4]
    obtain ⟨d2, hrun2, hc2, hp2⟩ := ih f d1 (x + s) (by omega) (hc.trans hc1) hxs.1 hxs.2.1
      hxs.2.2.1 (by push_cast at hnD; omega)
    refine ⟨d2, hrun2, hc2, ?_⟩
    intro px py hpx hpy
    rw [hp2 px py hpx hpy, hp1 px py (by rw [hc.2.1]; exact hpx) (by rw [hc.2.2.1]; exact hpy)]
    have ux := u8_cast x hx0 hx255
    have uy := u8_cast y hy.1 hy.2
    by_cases a : (py : Int) = y ∧ ((x + s ≤ px ∧ (px : Int) ≤ x1) ∨ (x1 ≤ px ∧ (px : Int) ≤ x + s))
    · rw [if_pos a, if_pos (by rcases hs with rfl | rfl <;> (push_cast at hx1n; omega))]
    · rw [if_neg a]
      by_cases e : px = u8 x ∧ py = u8 y
      · rw [if_pos e, if_pos (by rcases hs with rfl | rfl <;> (push_cast at hx1n; omega))]
      · rw [if_neg e, if_neg (by rcases hs with rfl | rfl <;> (push_cast at hx1n; omega))]


/-- The loop of `ssd1306_draw_line` on a vertical segment, `n` steps away from `y1`. -/
theorem vline_loop (d0 : ssd1306_t) (x y1 D sx s : Int) (hs : s = 1 ∨ s = -1)
    (hy1 : 0 ≤ y1 ∧ y1 < 256) (hx : 0 ≤ x ∧ x < 256) (hD : D < 256) :
    ∀ (n fuel : Nat) (d : ssd1306_t) (y : Int), n < fuel → SameConfig d0 d →
      0 ≤ y → y < 256 → y1 = y + s * n → (n : Int) ≤ D →
      ∃ d', draw_line_loop x y1 0 D sx s fuel d x y (-D) = .ok d' ∧ SameConfig d0 d' ∧
        ∀ px py, px < d0.width → py < d0.height →
          pixel d' px py =
            if (px : Int) = x ∧ ((y ≤ py ∧ (py : Int) ≤ y1) ∨ (y1 ≤ py ∧ (py : Int) ≤ y)) then true
            else pixel d px py := by
  intro n
  induction n with
  | zero =>
    intro fuel d y hf hc hy0 hy255 hy1n _
    obtain ⟨f, rfl⟩ : ∃ f, fuel = f + 1 := ⟨fuel - 1, by omega⟩
    have hye : y = y1 := by simp at hy1n; omega
    subst hye
    obtain ⟨d1, hrun, hc1, hp1⟩ := draw_pixel_pixel d (u8 x) (u8 y) true hc.1
    refine ⟨d1, draw_line_loop_last _ _ _ _ _ _ _ _ _ _ hrun, hc.trans hc1, ?_⟩
    intro px py hpx hpy
    rw [hp1 px py (by rw [hc.2.1]; exact hpx) (by rw [hc.2.2.1]; exact hpy)]
    have ux := u8_cast x hx.1 hx.2
    have uy := u8_cast y hy0 hy255
    by_cases e : px = u8 x ∧ py = u8 y
    · rw [if_pos e, if_pos (by omega)]
    · rw [if_neg e, if_neg (by omega)]
  | succ n ih =>
    intro fuel d y hf hc hy0 hy255 hy1n hnD
    obtain ⟨f, rfl⟩ : ∃ f, fuel = f + 1 := ⟨fuel - 1, by omega⟩
    obtain ⟨d1, hrun, hc1, hp1⟩ := draw_pixel_pixel d (u8 x) (u8 y) true hc.1
    have hys : 0 ≤ y + s ∧ y + s < 256 ∧ y1 = (y + s) + s * n ∧ y ≠ y1 := by
      rcases hs with rfl | rfl <;> (push_cast at hy1n; omega)
    have hne : ¬ (x = x ∧ y = y1) := fun h => hys.2.2.2 h.2
    have hD0 : 0 < D := by push_cast at hnD; omega
    have e2 : wrap16 (2 * -D) = 2 * -D := wrap16_id _ (by omega) (by omega)
    have c1 : ¬ wrap16 (2 * -D) > -D := by rw [e2]; omega
    have c2 : wrap16 (2 * -D) < 0 := by rw [e2]; omega
    have e3 : wrap16 (-D + 0) = -D := by rw [wrap16_id _ (by omega) (by omega)]; omega
    have e4 : wrap16 (y + s) = y + s := wrap16_id _ (by omega) (by omega)
    rw [draw_line_loop_step _ _ _ _ _ _ _ _ _ _ _ _ hrun hne]
    simp only [if_neg c1, if_pos c2, e3, e4]
    obtain ⟨d2, hrun2, hc2, hp2⟩ := ih f d1 (y + s) (by omega) (hc.trans hc1) hys.1 hys.2.1
      hys.2.2.1 (by push_cast at hnD; omega)
    refine ⟨d2, hrun2, hc2, ?_⟩
    intro px py hpx hpy
    rw [hp2 px py hpx hpy, hp1 px py (by rw [hc.2.1]; exact hpx) (by rw [hc.2.2.1]; exact hpy)]
    have ux := u8_cast x hx.1 hx.2
    have uy := u8_cast y hy0 hy255
    by_cases a : (px : Int) = x ∧ ((y + s ≤ py ∧ (py : Int) ≤ y1) ∨ (y1 ≤ py ∧ (py : Int) ≤ y + s))
    · rw [if_pos a, if_pos (by rcases hs with rfl | rfl <;> (push_cast at hy1n; omega))]
    · rw [if_neg a]
      by_cases e : px = u8 x ∧ py = u8 y
      · rw [if_pos e, if_pos (by rcases hs with rfl | rfl <;> (push_cast at hy1n; omega))]
      · rw [if_neg e, if_neg (by rcases hs with rfl | rfl <;> (push_cast at hy1n; omega))]

/-- The function `ssd1306_draw_line` on a horizontal segment with `uint8_t` end points. -/
theorem draw_line_horizontal (d : ssd1306_t) (hd : WF d) (fuel x0 x1 y : Nat) (hf : 256 ≤ fuel)
    (hx0 : x0 < 256) (hx1 : x1 < 256) (hy : y < 256) :
    ∃ d', ssd1306_draw_line fuel d x0 y x1 y = .ok d' ∧ SameConfig d d' ∧
      ∀ px py, px < d.width → py < d.height →
        pixel d' px py =
          if py = y ∧ ((x0 ≤ px ∧ px ≤ x1) ∨ (x1 ≤ px ∧ px ≤ x0)) then true
          else pixel d px py := by
  unfold ssd1306_draw_line
  have hdy : wrap16 (((y : Int) - y).natAbs) = 0 := by simp [wrap16]
  have hn : (((x1 : Int) - x0).natAbs : Int) < 256 := by omega
  have hdx : wrap16 (((x1 : Int) - x0).natAbs) = ((x1 : Int) - x0).natAbs :=
    wrap16_id _ (by omega) (by omega)
  have herr : wrap16 ((((x1 : Int) - x0).natAbs : Int) - 0) = ((x1 : Int) - x0).natAbs := by
    rw [wrap16_id _ (by omega) (by omega)]; omega
  simp only [hdy, hdx, herr]
  obtain ⟨d', hrun, hc, hp⟩ := hline_loop d x1 y (((x1 : Int) - x0).natAbs)
    (if (x0 : Int) < x1 then 1 else -1) (if (y : Int) < y then 1 else -1)
    (by split <;> simp) ⟨by omega, by omega⟩ ⟨by omega, by omega⟩ hn
    ((x1 : Int) - x0).natAbs fuel d x0 (by omega) (SameConfig.refl d hd) (by omega) (by omega)
    (by split <;> omega) (le_refl _)
  refine ⟨d', hrun, hc, ?_⟩
  intro px py hpx hpy
  rw [hp px py hpx hpy]
  by_cases a : py = y ∧ ((x0 ≤ px ∧ px ≤ x1) ∨ (x1 ≤ px ∧ px ≤ x0))
  · rw [if_pos a, if_pos (by omega)]
  · rw [if_neg a, if_neg (by omega)]

/-- The function `ssd1306_draw_line` on a vertical segment with `uint8_t` end points. -/
theorem draw_line_vertical (d : ssd1306_t) (hd : WF d) (fuel x y0 y1 : Nat) (hf : 256 ≤ fuel)
    (hx : x < 256) (hy0 : y0 < 256) (hy1 : y1 < 256) :
    ∃ d', ssd1306_draw_line fuel d x y0 x y1 = .ok d' ∧ SameConfig d d' ∧
      ∀ px py, px < d.width → py < d.height →
        pixel d' px py =
          if px = x ∧ ((y0 ≤ py ∧ py ≤ y1) ∨ (y1 ≤ py ∧ py ≤ y0)) then true
          else pixel d px py := by
  unfold ssd1306_draw_line
  have hdx : wrap16 (((x : Int) - x).natAbs) = 0 := by simp [wrap16]
  have hn : (((y1 : Int) - y0).natAbs : Int) < 256 := by omega
  have hdy : wrap16 (((y1 : Int) - y0).natAbs) = ((y1 : Int) - y0).natAbs :=
    wrap16_id _ (by omega) (by omega)
  have herr : wrap16 (0 - (((y1 : Int) - y0).natAbs : Int)) = -((y1 : Int) - y0).natAbs := by
    rw [wrap16_id _ (by omega) (by omega)]; omega
  simp only [hdy, hdx, herr]
  obtain ⟨d', hrun, hc, hp⟩ := vline_loop d x y1 (((y1 : Int) - y0).natAbs)
    (if (x : Int) < x then 1 else -1) (if (y0 : Int) < y1 then 1 else -1)
    (by split <;> simp) ⟨by omega, by omega⟩ ⟨by omega, by omega⟩ hn
    ((y1 : Int) - y0).natAbs fuel d y0 (by omega) (SameConfig.refl d hd) (by omega) (by omega)
    (by split <;> omega) (le_refl _)
  refine ⟨d', hrun, hc, ?_⟩
  intro px py hpx hpy
  rw [hp px py hpx hpy]
  by_cases a : px = x ∧ ((y0 ≤ py ∧ py ≤ y1) ∨ (y1 ≤ py ∧ py ≤ y0))
  · rw [if_pos a, if_pos (by omega)]
  · rw [if_neg a, if_neg (by omega)]


theorem bind_ok_eq {α β : Type} (a : α) (f : α → Except Fault β) :
    (Except.ok a >>= f) = f a := rfl

/-- C3: on an all-off buffer `ssd1306_draw_empty_rectangle`, given enough iterations
for its lines, turns on exactly the border of the box spanned by the two corners (in either
order): a pixel is on afterwards iff it lies in the box and has `x ∈ {x0, x1}` or
`y ∈ {y0, y1}`; interior pixels and pixels outside the box stay off. -/
theorem draw_empty_rectangle_spec (d : ssd1306_t) (fuel x0 y0 x1 y1 : Nat) (hd : WF d)
    (hf : 256 ≤ fuel) (hx0 : x0 < 256) (hy0 : y0 < 256) (hx1 : x1 < 256) (hy1 : y1 < 256)
    (hoff : ∀ px py, px < d.width → py < d.height → pixel d px py = false) :
    ∃ d', ssd1306_draw_empty_rectangle fuel d x0 y0 x1 y1 = .ok d' ∧ SameConfig d d' ∧
      ∀ px py, px < d.width → py < d.height →
        (pixel d' px py = true ↔
          (min x0 x1 ≤ px ∧ px ≤ max x0 x1 ∧ min y0 y1 ≤ py ∧ py ≤ max y0 y1 ∧
            (px = x0 ∨ px = x1 ∨ py = y0 ∨ py = y1))) := by
  obtain ⟨d1, r1, c1, p1⟩ := draw_line_horizontal d hd fuel x0 x1 y0 hf hx0 hx1 hy0
  obtain ⟨d2, r2, c2, p2⟩ := draw_line_horizontal d1 c1.1 fuel x0 x1 y1 hf hx0 hx1 hy1
  obtain ⟨d3, r3, c3, p3⟩ := draw_line_vertical d2 c2.1 fuel x0 y0 y1 hf hx0 hy0 hy1
  obtain ⟨d4, r4, c4, p4⟩ := draw_line_vertical d3 c3.1 fuel x1 y0 y1 hf hx1 hy0 hy1
  have c12 := c1.trans c2
  have c13 := c12.trans c3
  refine ⟨d4, ?_, c13.trans c4, ?_⟩
  · unfold ssd1306_draw_empty_rectangle
    rw [r1, bind_ok_eq, r2, bind_ok_eq, r3, bind_ok_eq, r4]
  · intro px py hpx hpy
    rw [p4 px py (by rw [c13.2.1]; exact hpx) (by rw [c13.2.2.1]; exact hpy),
      p3 px py (by rw [c12.2.1]; exact hpx) (by rw [c12.2.2.1]; exact hpy),
      p2 px py (by rw [c1.2.1]; exact hpx) (by rw [c1.2.2.1]; exact hpy),
      p1 px py hpx hpy, hoff px py hpx hpy]
    have hmin_x : min x0 x1 ≤ px ↔ (x0 ≤ px ∨ x1 ≤ px) := by
      rcases Nat.le_total x0 x1 with h | h
      · rw [Nat.min_eq_left h]; omega
      · rw [Nat.min_eq_right h]; omega
    have hmax_x : px ≤ max x0 x1 ↔ (px ≤ x0 ∨ px ≤ x1) := by
      rcases Nat.le_total x0 x1 with h | h
      · rw [Nat.max_eq_right h]; omega
      · rw [Nat.max_eq_left h]; omega
    have hmin_y : min y0 y1 ≤ py ↔ (y0 ≤ py ∨ y1 ≤ py) := by
      rcases Nat.le_total y0 y1 with h | h
      · rw [Nat.min_eq_left h]; omega
      · rw [Nat.min_eq_right h]; omega
    have hmax_y : py ≤ max y0 y1 ↔ (py ≤ y0 ∨ py ≤ y1) := by
      rcases Nat.le_total y0 y1 with h | h
      · rw [Nat.max_eq_right h]; omega
      · rw [Nat.max_eq_left h]; omega
    rw [hmin_x, hmax_x, hmin_y, hmax_y]
    by_cases a4 : px = x1 ∧ ((y0 ≤ py ∧ py ≤ y1) ∨ (y1 ≤ py ∧ py ≤ y0))
    · rw [if_pos a4]
      simp only [true_iff]
      omega
    · rw [if_neg a4]
      by_cases a3 : px = x0 ∧ ((y0 ≤ py ∧ py ≤ y1) ∨ (y1 ≤ py ∧ py ≤ y0))
      · rw [if_pos a3]
        simp only [true_iff]
        omega
      · rw [if_neg a3]
        by_cases a2 : py = y1 ∧ ((x0 ≤ px ∧ px ≤ x1) ∨ (x1 ≤ px ∧ px ≤ x0))
        · rw [if_pos a2]
          simp only [true_iff]
          omega
        · rw [if_neg a2]
          by_cases a1 : py = y0 ∧ ((x0 ≤ px ∧ px ≤ x1) ∨ (x1 ≤ px ∧ px ≤ x0))
          · rw [if_pos a1]
            simp only [true_iff]
            omega
          · rw [if_neg a1]
            simp only [Bool.false_eq_true, false_iff]
            omega

/-! ## Glyphs and strings -/

theorem and_shl_ne_zero_iff (m n : Nat) : (m &&& (1 <<< n) ≠ 0) ↔ m.testBit n = true := by
  rw [Nat.one_shiftLeft]
  constructor
  · intro h
    by_contra hb
    apply h
    apply Nat.eq_of_testBit_eq
    intro i
    rw [Nat.testBit_and, Nat.testBit_two_pow, Nat.zero_testBit]
    by_cases e : n = i
    · subst e
      simp [hb]
    · simp [e]
  · intro h h0
    have : (m &&& 2 ^ n).testBit n = true := by
      rw [Nat.testBit_and, Nat.testBit_two_pow, h]
      simp
    rw [h0, Nat.zero_testBit] at this
    exact Bool.noConfusion this

theorem for_loop_congr {σ : Type} (body body' : σ → Nat → Except Fault σ) (hi : Nat) :
    ∀ (n lo : Nat) (s : σ), hi - lo = n →
      (∀ s k, lo ≤ k → k < hi → body s k = body' s k) →
      for_loop lo hi body s = for_loop lo hi body' s := by
  intro n
  induction n with
  | zero =>
    intro lo s hn _
    rw [for_loop_stop lo hi body s (by omega), for_loop_stop lo hi body' s (by omega)]
  | succ n ih =>
    intro lo s hn h
    rw [for_loop_step lo hi body s (by omega), for_loop_step lo hi body' s (by omega),
      h s lo (Nat.le_refl _) (by omega)]
    cases body' s lo with
    | error e => rfl
    | ok s' => exact ih (lo + 1) s' (by omega) (fun s k hk hk' => h s k (by omega) hk')

theorem for_loop_shift {σ : Type} (body : σ → Nat → Except Fault σ) (a : Nat) :
    ∀ (n lo hi : Nat) (s : σ), hi - lo = n →
      for_loop lo hi body s = for_loop (lo + a) (hi + a) (fun s k => body s (k - a)) s := by
  intro n
  induction n with
  | zero =>
    intro lo hi s hn
    rw [for_loop_stop lo hi body s (by omega), for_loop_stop _ _ _ s (by omega)]
  | succ n ih =>
    intro lo hi s hn
    rw [for_loop_step lo hi body s (by omega), for_loop_step (lo + a) (hi + a) _ s (by omega)]
    simp only [Nat.add_sub_cancel]
    cases body s lo with
    | error e => rfl
    | ok s' =>
      simp only []
      rw [ih (lo + 1) hi s' (by omega)]
      rw [show lo + 1 + a = lo + a + 1 by omega]

/-- A nested loop over `[0, w) × [0, h)` that plots `(x + col, y + row)` with value `V col row`
repaints exactly the box `[x, x + w) × [y, y + h)`. -/
theorem paint_loop_offset (V : Nat → Nat → Bool)
    (body : ssd1306_t → Nat → Nat → Except Fault ssd1306_t) (x y w h : Nat)
    (hbody : ∀ d col row, col < w → row < h →
      body d col row = ssd1306_draw_pixel d (x + col) (y + row) (V col row))
    (d : ssd1306_t) (hd : WF d) :
    ∃ d', for_loop 0 w (fun d col => for_loop 0 h (fun d row => body d col row) d) d = .ok d' ∧
      SameConfig d d' ∧
      ∀ px py, px < d.width → py < d.height →
        pixel d' px py =
          if x ≤ px ∧ px < x + w ∧ y ≤ py ∧ py < y + h then V (px - x) (py - y)
          else pixel d px py := by
  have e : for_loop 0 w (fun d col => for_loop 0 h (fun d row => body d col row) d) d =
      for_loop x (x + w) (fun d k => for_loop y (y + h)
        (fun d l => body d (k - x) (l - y)) d) d := by
    rw [for_loop_shift _ x w 0 w d (by omega)]
    rw [show 0 + x = x by omega, show w + x = x + w by omega]
    apply for_loop_congr _ _ _ (x + w - x) x d rfl
    intro s k _ _
    show for_loop 0 h (fun d row => body d (k - x) row) s = _
    rw [for_loop_shift _ y h 0 h s (by omega)]
    rw [show 0 + y = y by omega, show h + y = y + h by omega]
  rw [e]
  exact paint_loop (fun k l => V (k - x) (l - y)) (fun d k l => body d (k - x) (l - y))
    x (x + w) y (y + h)
    (by
      intro d' k l hk1 hk2 hl1 hl2
      show body d' (k - x) (l - y) = _
      rw [hbody d' (k - x) (l - y) (by omega) (by omega)]
      rw [show x + (k - x) = k by omega, show y + (l - y) = l by omega])
    d hd

theorem font_read_ok (font : List Nat) (i : Nat) (h : i < font.length) :
    font_read font i = .ok (font.getD i 0) := by
  unfold font_read
  rw [List.getD_eq_getElem?_getD, List.getElem?_eq_getElem h]
  rfl

theorem FontOK.glyph_in_table {font : List Nat} (hf : FontOK font) (c : Nat)
    (hlast : c ≤ font.getD 4 0) : 5 + (c - 32 + 1) * glyph_width font ≤ font.length := by
  obtain ⟨_, _, _, htab, _⟩ := hf
  have : (c - 32 + 1) * glyph_width font ≤ (font.getD 4 0 - 32 + 1) * glyph_width font :=
    Nat.mul_le_mul_right _ (by omega)
  omega

/-- The 16x8 display is well formed. -/
theorem demo_display_wf : WF demo_display :=
  ⟨by decide, by decide, by decide, List.replicate 16 0, rfl, by decide, by decide⟩

/-- The two-glyph table is one the driver can read. -/
theorem demo_font_ok : FontOK demo_font :=
  ⟨by decide, by decide, by decide, by decide, by decide⟩

/-- The function `ssd1306_draw_char` for a table it can read: a range check followed by the
nested loop over the cells of the glyph. -/
theorem draw_char_unfold (font : List Nat) (d : ssd1306_t) (c x y : Nat) (hf : FontOK font) :
    ssd1306_draw_char font d c x y =
      if c < font.getD 3 0 ∨ font.getD 4 0 < c then .ok d
      else for_loop 0 (glyph_width font) (fun d col =>
        for_loop 0 (glyph_height font) (fun d row => glyph_cell font c x y d col row) d) d := by
  obtain ⟨hlen5, hfirst32, hlast256, htab, hgh⟩ := hf
  unfold ssd1306_draw_char
  rw [font_read_ok font 3 (by omega), font_read_ok font 4 (by omega),
    font_read_ok font 1 (by omega), font_read_ok font 0 (by omega)]
  simp only [bind_ok_eq]
  by_cases h1 : c < font.getD 3 0
  · rw [if_pos h1, if_pos (Or.inl h1)]; rfl
  · rw [if_neg h1]
    by_cases h2 : c > font.getD 4 0
    · rw [if_pos h2, if_pos (Or.inr h2)]; rfl
    · rw [if_neg h2, if_neg (by omega)]
      have hgw : glyph_width font < 256 := Nat.mod_lt _ (by norm_num)
      have h32 : 32 ≤ c := by omega
      have hidx : u16 (5 + ((c : Int) - 32) * ((font.getD 1 0 % 256 : Nat) : Int)) =
          5 + (c - 32) * glyph_width font := by
        have b1 : (c - 32) * glyph_width font ≤ 223 * 255 :=
          Nat.mul_le_mul (by omega) (by omega)
        have b2 : (5 + ((c : Int) - 32) * ((font.getD 1 0 % 256 : Nat) : Int)) =
            ((5 + (c - 32) * glyph_width font : Nat) : Int) := by
          unfold glyph_width
          push_cast [Nat.cast_sub h32]
          ring
        unfold u16
        rw [b2]
        omega
      have gw_def : font.getD 1 0 % 256 = glyph_width font := rfl
      have gh_def : font.getD 0 0 % 256 = glyph_height font := rfl
      simp only [hidx]
      simp only [gw_def, gh_def]
      apply for_loop_congr _ _ _ (glyph_width font - 0) 0 d rfl
      intro s k _ hk
      have hin : 5 + (c - 32) * glyph_width font + k < font.length := by
        have e1 : (c - 32 + 1) * glyph_width font =
            (c - 32) * glyph_width font + glyph_width font := by ring
        have e2 : (c - 32 + 1) * glyph_width font ≤
            (font.getD 4 0 - 32 + 1) * glyph_width font := Nat.mul_le_mul_right _ (by omega)
        omega
      simp only [font_read_ok font _ hin, bind_ok_eq]
      rfl

theorem glyph_cell_eq (font : List Nat) (c x y : Nat) (d : ssd1306_t) (col row : Nat)
    (hrow : row < 31) :
    glyph_cell font c x y d col row =
      ssd1306_draw_pixel d ((x + col) % 256) ((y + row) % 256)
        ((glyph_column font c col).testBit row) := by
  unfold glyph_cell
  rw [if_neg (by omega)]
  cases hb : (glyph_column font c col).testBit row
  · have : ¬ (glyph_column font c col &&& 1 <<< row ≠ 0) := by
      rw [and_shl_ne_zero_iff, hb]; exact Bool.noConfusion
    rw [if_neg this]
  · have : glyph_column font c col &&& 1 <<< row ≠ 0 := by
      rw [and_shl_ne_zero_iff, hb]
    rw [if_pos this]

theorem for_loop_noop {σ : Type} (body : σ → Nat → Except Fault σ) (lo hi : Nat) (s : σ)
    (h : ∀ k, lo ≤ k → k < hi → body s k = .ok s) : for_loop lo hi body s = .ok s := by
  obtain ⟨s', hrun, hs⟩ := for_loop_inv (fun _ t => t = s) body hi (hi - lo) lo s rfl rfl
    (fun k t hk hk' ht => ⟨s, by rw [ht]; exact h k hk hk', rfl⟩)
  rw [hrun, hs]

/-- A glyph whose columns all lie at or beyond the display width (and below 256) alters
nothing. -/
theorem draw_char_off_screen (font : List Nat) (d : ssd1306_t) (c x y : Nat) (hf : FontOK font)
    (hx : d.width ≤ x) (hxw : x + glyph_width font ≤ 256) :
    ssd1306_draw_char font d c x y = .ok d := by
  rw [draw_char_unfold font d c x y hf]
  split
  · rfl
  · apply for_loop_noop
    intro col _ hcol
    apply for_loop_noop
    intro row _ hrow
    rw [glyph_cell_eq font c x y d col row (by have := hf.2.2.2.2; omega)]
    apply draw_pixel_out_of_bounds
    left
    rw [Nat.mod_eq_of_lt (by omega)]
    omega

/-- A glyph drawn at a cursor `x` with `x + glyph_width ≤ 256` alters no pixel outside the
columns `[x, x + glyph_width)`. -/
theorem draw_char_columns (font : List Nat) (d : ssd1306_t) (c x y : Nat) (hd : WF d)
    (hf : FontOK font) (hxw : x + glyph_width font ≤ 256) :
    ∃ d', ssd1306_draw_char font d c x y = .ok d' ∧ SameConfig d d' ∧
      ∀ px py, px < d.width → py < d.height → ¬ (x ≤ px ∧ px < x + glyph_width font) →
        pixel d' px py = pixel d px py := by
  rw [draw_char_unfold font d c x y hf]
  split
  · exact ⟨d, rfl, SameConfig.refl d hd, fun _ _ _ _ _ => rfl⟩
  · obtain ⟨d', hrun, hI⟩ := for_loop_inv
      (fun _ d' => SameConfig d d' ∧ ∀ px py, px < d.width → py < d.height →
        ¬ (x ≤ px ∧ px < x + glyph_width font) → pixel d' px py = pixel d px py)
      (fun d col => for_loop 0 (glyph_height font)
        (fun d row => glyph_cell font c x y d col row) d)
      (glyph_width font) (glyph_width font - 0) 0 d rfl
      ⟨SameConfig.refl d hd, fun _ _ _ _ _ => rfl⟩
      (by
        intro col d1 _ hcol hI1
        obtain ⟨d2, hrun2, hI2⟩ := for_loop_inv
          (fun _ d' => SameConfig d d' ∧ ∀ px py, px < d.width → py < d.height →
            ¬ (x ≤ px ∧ px < x + glyph_width font) → pixel d' px py = pixel d px py)
          (fun d row => glyph_cell font c x y d col row)
          (glyph_height font) (glyph_height font - 0) 0 d1 rfl hI1
          (by
            intro row d2 _ hrow ⟨hc2, hp2⟩
            obtain ⟨d3, hrun3, hc3, hp3⟩ := draw_pixel_pixel d2 ((x + col) % 256)
              ((y + row) % 256) ((glyph_column font c col).testBit row) hc2.1
            refine ⟨d3, ?_, hc2.trans hc3, ?_⟩
            · show glyph_cell font c x y d2 col row = _
              rw [glyph_cell_eq font c x y d2 col row (by have := hf.2.2.2.2; omega)]
              exact hrun3
            · intro px py hpx hpy hout
              rw [hp3 px py (by rw [hc2.2.1]; exact hpx) (by rw [hc2.2.2.1]; exact hpy),
                if_neg (by rw [Nat.mod_eq_of_lt (show x + col < 256 by omega)]; omega)]
              exact hp2 px py hpx hpy hout)
        exact ⟨d2, hrun2, hI2⟩)
    exact ⟨d', hrun, hI.1, hI.2⟩


/-- Glyph blitting where no coordinate leaves the `uint8_t` range: for a glyph table in the
layout the driver reads, a supported character `c` and a position with
`x + glyph_width ≤ 256`, `y + glyph_height ≤ 256`, `ssd1306_draw_char` repaints the box: an
in-bounds pixel `(x + col, y + row)` of the box is on afterwards exactly when bit `row` of the
column byte `col` of the glyph is set, every pixel outside the box keeps its value, and cells of
the box outside the display alter nothing. -/
theorem draw_char_spec (font : List Nat) (d : ssd1306_t) (c x y : Nat) (hd : WF d)
    (hf : FontOK font) (hfirst : font.getD 3 0 ≤ c) (hlast : c ≤ font.getD 4 0)
    (hxw : x + glyph_width font ≤ 256) (hyh : y + glyph_height font ≤ 256) :
    ∃ d', ssd1306_draw_char font d c x y = .ok d' ∧ SameConfig d d' ∧
      ∀ px py, px < d.width → py < d.height →
        pixel d' px py =
          if x ≤ px ∧ px < x + glyph_width font ∧ y ≤ py ∧ py < y + glyph_height font then
            (glyph_column font c (px - x)).testBit (py - y)
          else pixel d px py := by
  rw [draw_char_unfold font d c x y hf, if_neg (by omega)]
  exact paint_loop_offset (fun col row => (glyph_column font c col).testBit row)
    (glyph_cell font c x y) x y (glyph_width font) (glyph_height font)
    (by
      intro d' col row hcol hrow
      rw [glyph_cell_eq font c x y d' col row (by have := hf.2.2.2.2; omega),
        Nat.mod_eq_of_lt (show x + col < 256 by omega),
        Nat.mod_eq_of_lt (show y + row < 256 by omega)])
    d hd

/-- An instance of glyph blitting within range: the glyph of `!` at `(2, 0)` on the 16x8
display. -/
theorem draw_char_spec_witness :
    (WF demo_display ∧ FontOK demo_font ∧ demo_font.getD 3 0 ≤ 33 ∧ 33 ≤ demo_font.getD 4 0 ∧
      2 + glyph_width demo_font ≤ 256 ∧ 0 + glyph_height demo_font ≤ 256) ∧
    ∃ d', ssd1306_draw_char demo_font demo_display 33 2 0 = .ok d' ∧ SameConfig demo_display d' ∧
      ∀ px py, px < demo_display.width → py < demo_display.height →
        pixel d' px py =
          if 2 ≤ px ∧ px < 2 + glyph_width demo_font ∧ 0 ≤ py ∧ py < 0 + glyph_height demo_font
          then (glyph_column demo_font 33 (px - 2)).testBit (py - 0)
          else pixel demo_display px py :=
  ⟨⟨demo_display_wf, demo_font_ok, by decide, by decide, by decide, by decide⟩,
    draw_char_spec demo_font demo_display 33 2 0 demo_display_wf demo_font_ok (by decide)
      (by decide) (by decide) (by decide)⟩

/-- C4 (code defect): `ssd1306_draw_char` passes `x + col` and `y + row` to the `uint8_t`
parameters of `ssd1306_draw_pixel`, so a cell at column or row 256 or more is reduced modulo
256 before the bounds check instead of being dropped. The glyph of `!` (a supported character)
drawn at `x = 254` on a 16x8 all-off display has its third column at `254 + 2 = 256`, which
becomes column `0`: pixel `(0, 0)`, outside the box `[254, 259) × [0, 8)`, is switched on.
Drawn at `y = 250`, row 6 of that column lands at `250 + 6 = 256`, that is row `0`: pixel
`(4, 0)`, outside the box `[2, 7) × [250, 258)`, is switched on. -/
theorem draw_char_wraps_around :
    (demo_font.getD 3 0 ≤ 33 ∧ 33 ≤ demo_font.getD 4 0) ∧
    (ssd1306_draw_char demo_font demo_display 33 254 0 =
        .ok { demo_display with
              buffer := some [0x5f, 0, 0, 0, 0, 0, 0, 0, 0, 0, 0, 0, 0, 0, 0, 0] } ∧
      ¬ (254 ≤ 0 ∧ 0 < 254 + glyph_width demo_font) ∧
      pixel demo_display 0 0 = false ∧
      pixel { demo_display with
              buffer := some [0x5f, 0, 0, 0, 0, 0, 0, 0, 0, 0, 0, 0, 0, 0, 0, 0] } 0 0 = true) ∧
    (ssd1306_draw_char demo_font demo_display 33 2 250 =
        .ok { demo_display with
              buffer := some [0, 0, 0, 0, 0x01, 0, 0, 0, 0, 0, 0, 0, 0, 0, 0, 0] } ∧
      ¬ (250 ≤ 0 ∧ 0 < 250 + glyph_height demo_font) ∧
      pixel demo_display 4 0 = false ∧
      pixel { demo_display with
              buffer := some [0, 0, 0, 0, 0x01, 0, 0, 0, 0, 0, 0, 0, 0, 0, 0, 0] } 4 0 = true) :=
  ⟨⟨by decide, by decide⟩, ⟨rfl, by decide, by decide, by decide⟩,
    ⟨rfl, by decide, by decide, by decide⟩⟩

theorem draw_string_nil (font : List Nat) (d : ssd1306_t) (x y : Nat) :
    ssd1306_draw_string font d [] x y = .ok d := by
  rw [ssd1306_draw_string]

theorem draw_string_nul (font : List Nat) (d : ssd1306_t) (text : List Nat) (x y : Nat) :
    ssd1306_draw_string font d (0 :: text) x y = .ok d := by
  rw [ssd1306_draw_string]
  rfl

theorem draw_string_cons (font : List Nat) (d d1 : ssd1306_t) (c : Nat) (text : List Nat)
    (x y : Nat) (hc : c ≠ 0) (hlen : 1 < font.length)
    (h1 : ssd1306_draw_char font d c x y = .ok d1) :
    ssd1306_draw_string font d (c :: text) x y =
      ssd1306_draw_string font d1 text ((x + font.getD 1 0 + 1) % 256) y := by
  rw [ssd1306_draw_string, if_neg hc, h1, bind_ok_eq, font_read_ok font 1 hlen, bind_ok_eq]

/-- A text whose first cursor lies at or beyond the display width, and whose cursors stay in
the `uint8_t` range, alters nothing. -/
theorem draw_string_off_screen (font : List Nat) (hf : FontOK font) (y : Nat) :
    ∀ (text : List Nat) (d : ssd1306_t) (x : Nat),
      (strlen text ≠ 0 → d.width ≤ x ∧ x + strlen text * (glyph_width font + 1) ≤ 256) →
      ssd1306_draw_string font d text x y = .ok d := by
  intro text
  induction text with
  | nil => intro d x _; exact draw_string_nil font d x y
  | cons c rest ih =>
    intro d x h
    by_cases hc : c = 0
    · subst hc; exact draw_string_nul font d rest x y
    · have hs : strlen (c :: rest) = strlen rest + 1 := by rw [strlen, if_neg hc]
      obtain ⟨hw, hx⟩ := h (by rw [hs]; omega)
      rw [hs] at hx
      have e1 : (strlen rest + 1) * (glyph_width font + 1) =
          strlen rest * (glyph_width font + 1) + glyph_width font + 1 := by ring
      have hoff := draw_char_off_screen font d c x y hf hw (by omega)
      rw [draw_string_cons font d d c rest x y hc (by have := hf.1; omega) hoff]
      apply ih
      intro hne
      have e2 : glyph_width font + 1 ≤ strlen rest * (glyph_width font + 1) :=
        Nat.le_mul_of_pos_left _ (by omega)
      have e3 : glyph_width font = font.getD 1 0 % 256 := rfl
      omega

theorem draw_string_aux (font : List Nat) (hf : FontOK font) (X y : Nat) :
    ∀ (text : List Nat) (d : ssd1306_t) (k x : Nat), WF d →
      (strlen text ≠ 0 → x = X + k * (glyph_width font + 1)) →
      X + (k + strlen text) * (glyph_width font + 1) ≤ 256 →
      ∃ d', ssd1306_draw_string font d text x y = .ok d' ∧ SameConfig d d' ∧
        draw_string_unwrapped font d text X y k = .ok d' ∧
        (∀ px py, px < d.width → py < d.height → px < X → pixel d' px py = pixel d px py) ∧
        (∀ m, d.width ≤ X + (k + m) * (glyph_width font + 1) →
          ssd1306_draw_string font d (text.take m) x y = .ok d') := by
  intro text
  induction text with
  | nil =>
    intro d k x hd _ _
    refine ⟨d, draw_string_nil font d x y, SameConfig.refl d hd, by rw [draw_string_unwrapped],
      fun _ _ _ _ _ => rfl, ?_⟩
    intro m _
    rw [List.take_nil]
    exact draw_string_nil font d x y
  | cons c rest ih =>
    intro d k x hd hx hfit
    by_cases hc : c = 0
    · subst hc
      refine ⟨d, draw_string_nul font d rest x y, SameConfig.refl d hd,
        by rw [draw_string_unwrapped]; rfl, fun _ _ _ _ _ => rfl, ?_⟩
      intro m _
      cases m with
      | zero => rw [List.take_zero]; exact draw_string_nil font d x y
      | succ m => rw [List.take_succ_cons]; exact draw_string_nul font d _ x y
    · have hs : strlen (c :: rest) = strlen rest + 1 := by rw [strlen, if_neg hc]
      have hxe : x = X + k * (glyph_width font + 1) := hx (by rw [hs]; omega)
      rw [hs] at hfit
      have e1 : (k + (strlen rest + 1)) * (glyph_width font + 1) =
          k * (glyph_width font + 1) + strlen rest * (glyph_width font + 1)
            + glyph_width font + 1 := by ring
      have e2 : (k + 1 + strlen rest) * (glyph_width font + 1) =
          k * (glyph_width font + 1) + strlen rest * (glyph_width font + 1)
            + glyph_width font + 1 := by ring
      have e3 : (k + 1) * (glyph_width font + 1) =
          k * (glyph_width font + 1) + glyph_width font + 1 := by ring
      have e4 : glyph_width font = font.getD 1 0 % 256 := rfl
      have hxw : x + glyph_width font ≤ 256 := by omega
      obtain ⟨d1, hrun1, hc1, hp1⟩ := draw_char_columns font d c x y hd hf hxw
      have hcons := draw_string_cons font d d1 c rest x y hc (by have := hf.1; omega) hrun1
      obtain ⟨d2, hrun2, hc2, hun2, hp2, htake2⟩ := ih d1 (k + 1)
        ((x + font.getD 1 0 + 1) % 256) hc1.1
        (by
          intro hne
          have : glyph_width font + 1 ≤ strlen rest * (glyph_width font + 1) :=
            Nat.le_mul_of_pos_left _ (by omega)
          omega)
        (by omega)
      refine ⟨d2, by rw [hcons]; exact hrun2, hc1.trans hc2, ?_, ?_, ?_⟩
      · rw [draw_string_unwrapped, if_neg hc, ← hxe, hrun1]
        exact hun2
      · intro px py hpx hpy hlt
        rw [hp2 px py (by rw [hc1.2.1]; exact hpx) (by rw [hc1.2.2.1]; exact hpy) hlt]
        exact hp1 px py hpx hpy (by omega)
      · intro m hm
        cases m with
        | zero =>
          rw [List.take_zero, draw_string_nil]
          have hwx : d.width ≤ x := by simp at hm; omega
          have hoff := draw_char_off_screen font d c x y hf hwx hxw
          have hd1 : d1 = d := by
            rw [hoff] at hrun1
            exact (Except.ok.inj hrun1).symm
          subst hd1
          have hrest := draw_string_off_screen font hf y rest d1
            ((x + font.getD 1 0 + 1) % 256)
            (by
              intro hne
              have : glyph_width font + 1 ≤ strlen rest * (glyph_width font + 1) :=
                Nat.le_mul_of_pos_left _ (by omega)
              omega)
          rw [hrest] at hrun2
          exact hrun2
        | succ m =>
          rw [List.take_succ_cons,
            draw_string_cons font d d1 c _ x y hc (by have := hf.1; omega) hrun1]
          apply htake2
          rw [hc1.2.1]
          have : (k + 1 + m) * (glyph_width font + 1) = (k + (m + 1)) * (glyph_width font + 1) := by
            ring
          omega


/-- String drawing where the cursor never leaves the `uint8_t` range
(`x + strlen text * (glyph_width + 1) ≤ 256`): `ssd1306_draw_string` produces the buffer obtained
by drawing character number `k` with `ssd1306_draw_char` at the cursor
`x + k * (glyph_width + 1)`, left to right; no pixel in a column to the left of `x` is altered,
and the characters whose cursor lies at or beyond the display width alter nothing (the result
is that of the text cut before the first such character). -/
theorem draw_string_spec (font : List Nat) (d : ssd1306_t) (text : List Nat) (x y : Nat)
    (hd : WF d) (hf : FontOK font)
    (hfit : x + strlen text * (glyph_width font + 1) ≤ 256) :
    ∃ d', ssd1306_draw_string font d text x y = .ok d' ∧ SameConfig d d' ∧
      draw_string_unwrapped font d text x y 0 = .ok d' ∧
      (∀ px py, px < d.width → py < d.height → px < x → pixel d' px py = pixel d px py) ∧
      (∀ m, d.width ≤ x + m * (glyph_width font + 1) →
        ssd1306_draw_string font d (text.take m) x y = .ok d') := by
  obtain ⟨d', h1, h2, h3, h4, h5⟩ := draw_string_aux font hf x y text d 0 x hd
    (fun _ => by simp) (by simpa using hfit)
  exact ⟨d', h1, h2, h3, h4, fun m hm => h5 m (by simpa using hm)⟩

/-- An instance of string drawing within range: the text `"! !"` at `(2, 0)` on the 16x8
display. -/
theorem draw_string_spec_witness :
    (WF demo_display ∧ FontOK demo_font ∧
      2 + strlen [33, 32, 33] * (glyph_width demo_font + 1) ≤ 256) ∧
    ∃ d', ssd1306_draw_string demo_font demo_display [33, 32, 33] 2 0 = .ok d' ∧
      SameConfig demo_display d' ∧
      draw_string_unwrapped demo_font demo_display [33, 32, 33] 2 0 0 = .ok d' ∧
      (∀ px py, px < demo_display.width → py < demo_display.height → px < 2 →
        pixel d' px py = pixel demo_display px py) ∧
      (∀ m, demo_display.width ≤ 2 + m * (glyph_width demo_font + 1) →
        ssd1306_draw_string demo_font demo_display (List.take m [33, 32, 33]) 2 0 = .ok d') :=
  ⟨⟨demo_display_wf, demo_font_ok, by decide⟩,
    draw_string_spec demo_font demo_display [33, 32, 33] 2 0 demo_display_wf demo_font_ok
      (by decide)⟩

/-- C5 (code defect): the cursor `x` of `ssd1306_draw_string` is a `uint8_t`, and
`x = x + font_8x5[1] + 1` wraps modulo 256 instead of running off the display. For the text
`"!!"` at `x = 250` on a 16x8 all-off display the cursor of the second character is
`250 + 6 = 256`, at or beyond the display width, but it wraps to `0` and the glyph is drawn at
the left edge: pixel `(2, 0)`, in a column to the left of the start column `250`, is switched
on. -/
theorem draw_string_wraps_around :
    ssd1306_draw_string demo_font demo_display [33, 33] 250 0 =
      .ok { demo_display with buffer := some [0, 0, 0x5f, 0, 0, 0, 0, 0, 0, 0, 0, 0, 0, 0, 0, 0] } ∧
    demo_display.width ≤ 250 + 1 * (glyph_width demo_font + 1) ∧
    2 < 250 ∧
    pixel demo_display 2 0 = false ∧
    pixel { demo_display with
            buffer := some [0, 0, 0x5f, 0, 0, 0, 0, 0, 0, 0, 0, 0, 0, 0, 0, 0] } 2 0 = true :=
  ⟨rfl, by decide, by decide, by decide, by decide⟩

/-! ## Protocol layer -/

theorem send_command_eq (tr : Transport) (log : List I2CWrite) (d : ssd1306_t) (c : Nat) :
    ssd1306_send_command tr log d c = (log ++ [command_message d c], d) := rfl

theorem send_commands_eq (tr : Transport) (d : ssd1306_t) :
    ∀ (cmds : List Nat) (log : List I2CWrite),
      send_commands tr log d cmds = (log ++ cmds.map (command_message d), d) := by
  intro cmds
  induction cmds with
  | nil => intro log; simp [send_commands]
  | cons c cs ih =>
    intro log
    have h := ih (log ++ [command_message d c])
    unfold send_commands at h ⊢
    rw [List.foldl_cons, send_command_eq, h]
    simp

theorem send_data_eq (tr : Transport) (log : List I2CWrite) (d : ssd1306_t) (bytes : List Nat)
    (size : Nat) (h : size = bytes.length) :
    ssd1306_send_data tr log d (some bytes) size = .ok (log ++ [data_message d bytes], d) := by
  subst h
  simp [ssd1306_send_data, i2c_write_blocking, data_message]

theorem update_eq (tr : Transport) (log : List I2CWrite) (d : ssd1306_t) (buf : List Nat)
    (hw : d.width < 256) (hh : d.height < 256) (hb : d.buffer = some buf)
    (hlen : buf.length = d.width * d.height / 8) :
    ssd1306_update tr log d =
      .ok (log ++ [command_message d 0x21, command_message d 0,
                   command_message d (u8 ((d.width : Int) - 1)),
                   command_message d 0x22, command_message d 0,
                   command_message d (u8 (((d.height / 8 : Nat) : Int) - 1)),
                   data_message d buf], d) := by
  have hsz : u16 ((d.width * d.height / 8 : Nat) : Int) = buf.length := by
    have : d.width * d.height ≤ 255 * 255 := Nat.mul_le_mul (by omega) (by omega)
    unfold u16
    omega
  unfold ssd1306_update
  simp only [send_command_eq, hb]
  rw [send_data_eq tr _ d buf _ hsz]
  simp

/-- C6: for a display with `width ≥ 1`, `height` a positive multiple of 8 and a
buffer of `width*height/8` bytes, `ssd1306_update` puts on the bus, in this order, the six
command messages `0x21, 0, width-1, 0x22, 0, height/8-1` (each the two bytes `0x00`, command)
and then one data message of `width*height/8 + 1` bytes: the marker `0x40` followed by the
buffer bytes in index order; the display structure (and so the framebuffer) is unchanged, and
the length of the data message is the same for every buffer content. -/
theorem update_spec (tr : Transport) (log : List I2CWrite) (d : ssd1306_t) (buf : List Nat)
    (hw1 : 1 ≤ d.width) (hw : d.width < 256) (hh0 : 0 < d.height) (hh : d.height < 256)
    (h8 : d.height % 8 = 0) (hb : d.buffer = some buf)
    (hlen : buf.length = d.width * d.height / 8) :
    ssd1306_update tr log d =
      .ok (log ++
        [ { i2c := d.i2c, addr := d.addr, bytes := [0x00, 0x21], nostop := false },
          { i2c := d.i2c, addr := d.addr, bytes := [0x00, 0], nostop := false },
          { i2c := d.i2c, addr := d.addr, bytes := [0x00, d.width - 1], nostop := false },
          { i2c := d.i2c, addr := d.addr, bytes := [0x00, 0x22], nostop := false },
          { i2c := d.i2c, addr := d.addr, bytes := [0x00, 0], nostop := false },
          { i2c := d.i2c, addr := d.addr, bytes := [0x00, d.height / 8 - 1], nostop := false },
          { i2c := d.i2c, addr := d.addr, bytes := 0x40 :: buf, nostop := false } ], d) ∧
    (0x40 :: buf).length = d.width * d.height / 8 + 1 := by
  have e1 : u8 ((d.width : Int) - 1) = d.width - 1 := by unfold u8; omega
  have e2 : u8 (((d.height / 8 : Nat) : Int) - 1) = d.height / 8 - 1 := by unfold u8; omega
  refine ⟨?_, by simp [hlen]⟩
  rw [update_eq tr log d buf hw hh hb hlen, e1, e2]
  rfl

/-- An instance of the theorem on `ssd1306_update`: the 16x8 display on an empty bus log. -/
theorem update_spec_witness :
    (1 ≤ demo_display.width ∧ demo_display.width < 256 ∧ 0 < demo_display.height ∧
      demo_display.height < 256 ∧ demo_display.height % 8 = 0 ∧
      demo_display.buffer = some (List.replicate 16 0) ∧
      (List.replicate 16 0).length = demo_display.width * demo_display.height / 8) ∧
    (ssd1306_update (fun _ _ => 2) [] demo_display =
      .ok ([] ++
        [ { i2c := demo_display.i2c, addr := demo_display.addr, bytes := [0x00, 0x21],
            nostop := false },
          { i2c := demo_display.i2c, addr := demo_display.addr, bytes := [0x00, 0],
            nostop := false },
          { i2c := demo_display.i2c, addr := demo_display.addr,
            bytes := [0x00, demo_display.width - 1], nostop := false },
          { i2c := demo_display.i2c, addr := demo_display.addr, bytes := [0x00, 0x22],
            nostop := false },
          { i2c := demo_display.i2c, addr := demo_display.addr, bytes := [0x00, 0],
            nostop := false },
          { i2c := demo_display.i2c, addr := demo_display.addr,
            bytes := [0x00, demo_display.height / 8 - 1], nostop := false },
          { i2c := demo_display.i2c, addr := demo_display.addr,
            bytes := 0x40 :: List.replicate 16 0, nostop := false } ], demo_display) ∧
      (0x40 :: List.replicate 16 0).length = demo_display.width * demo_display.height / 8 + 1) :=
  ⟨⟨by decide, by decide, by decide, by decide, by decide, rfl, by decide⟩,
    update_spec (fun _ _ => 2) [] demo_display (List.replicate 16 0) (by decide) (by decide)
      (by decide) (by decide) (by decide) rfl (by decide)⟩


theorem getD_replicate_zero (n i : Nat) : (List.replicate n 0).getD i 0 = 0 := by
  rw [List.getD_eq_getElem?_getD]
  by_cases h : i < n
  · rw [List.getElem?_eq_getElem (by simpa using h)]
    simp
  · rw [List.getElem?_eq_none (by simpa using h)]
    rfl

theorem clear_display_eq (d : ssd1306_t) (buf : List Nat) (hb : d.buffer = some buf)
    (hlen : buf.length = d.width * d.height / 8) :
    ssd1306_clear_display d =
      .ok { d with buffer := some (List.replicate (d.width * d.height / 8) 0) } := by
  unfold ssd1306_clear_display
  simp only [hb]
  rw [if_pos (by omega), List.drop_of_length_le (by omega), List.append_nil]

/-- C7: for every `height` that is a positive multiple of 8 and every `width`, with
the allocation of the buffer succeeding, `ssd1306_init` emits once, each as its own command
message and in this order, the 25 configuration bytes, then clears the framebuffer and performs
one `ssd1306_update`; afterwards every pixel is off and the last message on the bus is the data
message `0x40` followed by `width*height/8` zero bytes. The charge-pump and precharge bytes are
the ones selected by the `external_vcc` field of the display structure. -/
theorem init_spec (tr : Transport) (malloc : Nat → Option (List Nat)) (log : List I2CWrite)
    (d : ssd1306_t) (i2c height width addr : Nat) (external_vcc : Bool) (blk : List Nat)
    (hh0 : 0 < height) (hh : height < 256) (h8 : height % 8 = 0) (hw : width < 256)
    (hm : malloc (height * width / 8) = some blk) (hlen : blk.length = height * width / 8) :
    ∃ log' d',
      ssd1306_init tr malloc log d i2c height width addr external_vcc = .ok (log', d') ∧
      d' = { height := height, width := width, addr := addr, i2c := i2c,
             buffer := some (List.replicate (width * height / 8) 0),
             external_vcc := d.external_vcc } ∧
      ssd1306_update tr
        (log ++ [0xAE, 0xD5, 0x80, 0xA8, height - 1, 0xD3, 0x00, 0x40, 0x8D,
            if d.external_vcc then 0x10 else 0x14, 0xA1, 0xC8, 0xDA,
            if width > 2 * height then 0x02 else 0x12, 0x81, 0xFF, 0xD9,
            if d.external_vcc then 0x22 else 0xF1, 0xDB, 0x30, 0xA4, 0xA6, 0xAF, 0x20, 0x00].map
          (fun c => { i2c := i2c, addr := addr, bytes := [0x00, c], nostop := false })) d'
        = .ok (log', d') ∧
      log' = log ++ [0xAE, 0xD5, 0x80, 0xA8, height - 1, 0xD3, 0x00, 0x40, 0x8D,
            if d.external_vcc then 0x10 else 0x14, 0xA1, 0xC8, 0xDA,
            if width > 2 * height then 0x02 else 0x12, 0x81, 0xFF, 0xD9,
            if d.external_vcc then 0x22 else 0xF1, 0xDB, 0x30, 0xA4, 0xA6, 0xAF, 0x20, 0x00,
            0x21, 0, u8 ((width : Int) - 1), 0x22, 0, height / 8 - 1].map
          (fun c => { i2c := i2c, addr := addr, bytes := [0x00, c], nostop := false })
        ++ [{ i2c := i2c, addr := addr,
              bytes := 0x40 :: List.replicate (width * height / 8) 0, nostop := false }] ∧
      log'.length = log.length + 25 + 7 ∧
      log'.getLast? = some { i2c := i2c, addr := addr,
                             bytes := 0x40 :: List.replicate (width * height / 8) 0,
                             nostop := false } ∧
      ∀ x y, pixel d' x y = false := by
  have hcomm : height * width / 8 = width * height / 8 := by rw [Nat.mul_comm]
  have e1 : u8 ((height : Int) - 1) = height - 1 := by unfold u8; omega
  have hcmds : (init_cmds { d with addr := addr, i2c := i2c, height := height, width := width,
                                   buffer := some blk } height width).map
      (command_message { d with addr := addr, i2c := i2c, height := height, width := width,
                                buffer := some blk }) =
      [0xAE, 0xD5, 0x80, 0xA8, height - 1, 0xD3, 0x00, 0x40, 0x8D,
        if d.external_vcc then 0x10 else 0x14, 0xA1, 0xC8, 0xDA,
        if width > 2 * height then 0x02 else 0x12, 0x81, 0xFF, 0xD9,
        if d.external_vcc then 0x22 else 0xF1, 0xDB, 0x30, 0xA4, 0xA6, 0xAF, 0x20, 0x00].map
      (fun c => { i2c := i2c, addr := addr, bytes := [0x00, c], nostop := false }) := by
    simp [init_cmds, command_message, e1, SET_DISP, SET_DISP_CLK_DIV, SET_MUX_RATIO,
      SET_DISP_OFFSET, SET_DISP_START_LINE, SET_CHARGE_PUMP, SET_SEG_REMAP, SET_COM_OUT_DIR,
      SET_COM_PIN_CFG, SET_CONTRAST, SET_PRECHARGE, SET_VCOM_DESEL, SET_ENTIRE_ON, SET_NORM_INV,
      SET_MEM_ADDR]
  have hupd := update_eq tr
    (log ++ [0xAE, 0xD5, 0x80, 0xA8, height - 1, 0xD3, 0x00, 0x40, 0x8D,
        if d.external_vcc then 0x10 else 0x14, 0xA1, 0xC8, 0xDA,
        if width > 2 * height then 0x02 else 0x12, 0x81, 0xFF, 0xD9,
        if d.external_vcc then 0x22 else 0xF1, 0xDB, 0x30, 0xA4, 0xA6, 0xAF, 0x20, 0x00].map
      (fun c => { i2c := i2c, addr := addr, bytes := [0x00, c], nostop := false }))
    { height := height, width := width, addr := addr, i2c := i2c,
      buffer := some (List.replicate (width * height / 8) 0), external_vcc := d.external_vcc }
    (List.replicate (width * height / 8) 0) hw hh rfl (by simp)
  have hrun : ssd1306_init tr malloc log d i2c height width addr external_vcc =
      ssd1306_update tr
        (log ++ [0xAE, 0xD5, 0x80, 0xA8, height - 1, 0xD3, 0x00, 0x40, 0x8D,
            if d.external_vcc then 0x10 else 0x14, 0xA1, 0xC8, 0xDA,
            if width > 2 * height then 0x02 else 0x12, 0x81, 0xFF, 0xD9,
            if d.external_vcc then 0x22 else 0xF1, 0xDB, 0x30, 0xA4, 0xA6, 0xAF, 0x20, 0x00].map
          (fun c => { i2c := i2c, addr := addr, bytes := [0x00, c], nostop := false }))
        { height := height, width := width, addr := addr, i2c := i2c,
          buffer := some (List.replicate (width * height / 8) 0),
          external_vcc := d.external_vcc } := by
    unfold ssd1306_init
    simp only [hm, send_commands_eq]
    rw [clear_display_eq _ blk rfl (by simp only []; omega), hcmds]
  have e2 : u8 ((height : Int) / 8 - 1) = height / 8 - 1 := by unfold u8; omega
  refine ⟨_, _, hrun.trans hupd, rfl, hupd, ?_, ?_, ?_, ?_⟩
  · simp [command_message, data_message, e2]
  · simp
  · simp [data_message]
  · intro x y
    simp only [pixel]
    rw [getD_replicate_zero, Nat.zero_testBit]


/-- An instance of the theorem on `ssd1306_init`: a 16x8 display, the allocator handing out
blocks filled with `0xAA`. -/
theorem init_spec_witness :
    (0 < 8 ∧ 8 < 256 ∧ 8 % 8 = 0 ∧ 16 < 256 ∧
      (fun n => some (List.replicate n 0xAA)) (8 * 16 / 8) = some (List.replicate 16 0xAA) ∧
      (List.replicate 16 0xAA).length = 8 * 16 / 8) ∧
    ∃ log' d',
      ssd1306_init (fun _ _ => 2) (fun n => some (List.replicate n 0xAA)) [] demo_display
        1 8 16 0x3C false = .ok (log', d') ∧
      log'.length = 32 ∧ ∀ x y, pixel d' x y = false :=
  ⟨⟨by decide, by decide, by decide, by decide, rfl, by decide⟩,
    let ⟨log', d', h1, _, _, _, h4, _, h6⟩ :=
      init_spec (fun _ _ => 2) (fun n => some (List.replicate n 0xAA)) [] demo_display
        1 8 16 0x3C false (List.replicate 16 0xAA) (by decide) (by decide) (by decide)
        (by decide) rfl (by decide)
    ⟨log', d', h1, h4, h6⟩⟩

/-- C8 (code defect): `ssd1306_init` never reads its `external_vcc` argument. Called
with `external_vcc = true` on a display structure whose field holds `false`, it emits the
charge-pump byte `0x14` and the precharge byte `0xF1` (the values for `false`) as its 10th and
18th command, and the field of the structure is still `false` afterwards. -/
theorem init_external_vcc_argument_unused :
    (ssd1306_init (fun _ _ => 2) (fun n => some (List.replicate n 0)) [] demo_display
        1 8 16 0x3C true).toOption.map (fun r => (r.1[9]?, r.1[17]?, r.2.external_vcc)) =
      some (some { i2c := 1, addr := 0x3C, bytes := [0x00, 0x14], nostop := false },
            some { i2c := 1, addr := 0x3C, bytes := [0x00, 0xF1], nostop := false },
            false) := by
  rfl

/-- C9 (code defect): `ssd1306_power_on` emits the single command `0xAE`, the byte
`ssd1306_init` sends first to switch the display off, and `ssd1306_power_off` emits the single
command `0xAF`, the byte `ssd1306_init` sends to switch the display on: the two are swapped.
Neither changes the display structure. -/
theorem power_on_off_swapped (tr : Transport) (log : List I2CWrite) (d : ssd1306_t)
    (height width : Nat) :
    ssd1306_power_on tr log d =
      (log ++ [{ i2c := d.i2c, addr := d.addr, bytes := [0x00, 0xAE], nostop := false }], d) ∧
    ssd1306_power_off tr log d =
      (log ++ [{ i2c := d.i2c, addr := d.addr, bytes := [0x00, 0xAF], nostop := false }], d) ∧
    (init_cmds d height width)[0]? = some 0xAE ∧
    (init_cmds d height width)[22]? = some 0xAF := by
  refine ⟨rfl, rfl, rfl, rfl⟩

/-- C10 fails as stated: with a transport that reports failure for every write, each
bus operation gives its caller exactly what it gives with a transport that reports success for
every write; no failure result is returned. -/
theorem transport_failure_unreported_counterexample :
    (i2c_write_blocking failing_transport [] demo_display.i2c demo_display.addr [0x00, 0xAE] 2
        false).2 = PICO_ERROR_GENERIC ∧
    ssd1306_update failing_transport [] demo_display =
      ssd1306_update working_transport [] demo_display ∧
    ssd1306_set_contrast failing_transport [] demo_display 10 =
      ssd1306_set_contrast working_transport [] demo_display 10 ∧
    ssd1306_invert_display failing_transport [] demo_display true =
      ssd1306_invert_display working_transport [] demo_display true ∧
    ssd1306_power_on failing_transport [] demo_display =
      ssd1306_power_on working_transport [] demo_display ∧
    ssd1306_power_off failing_transport [] demo_display =
      ssd1306_power_off working_transport [] demo_display ∧
    ssd1306_init failing_transport (fun n => some (List.replicate n 0)) [] demo_display
        1 8 16 0x3C false =
      ssd1306_init working_transport (fun n => some (List.replicate n 0)) [] demo_display
        1 8 16 0x3C false :=
  ⟨rfl, rfl, rfl, rfl, rfl, rfl, rfl⟩

/-- C10 (amended): the bus operations return nothing that depends on the transport:
`ssd1306_init`, `ssd1306_update`, `ssd1306_set_contrast`, `ssd1306_invert_display`,
`ssd1306_power_on` and `ssd1306_power_off` have the same outcome whatever the transport reports
for their writes; and in every case update, set_contrast, invert_display and the power toggles
leave the display structure, and so the framebuffer, unchanged. -/
theorem transport_result_discarded (tr tr' : Transport) (malloc : Nat → Option (List Nat))
    (log : List I2CWrite) (d : ssd1306_t) (i2c height width addr value : Nat)
    (external_vcc invert : Bool) (hd : WF d) :
    (ssd1306_init tr malloc log d i2c height width addr external_vcc =
        ssd1306_init tr' malloc log d i2c height width addr external_vcc ∧
      ssd1306_update tr log d = ssd1306_update tr' log d ∧
      ssd1306_set_contrast tr log d value = ssd1306_set_contrast tr' log d value ∧
      ssd1306_invert_display tr log d invert = ssd1306_invert_display tr' log d invert ∧
      ssd1306_power_on tr log d = ssd1306_power_on tr' log d ∧
      ssd1306_power_off tr log d = ssd1306_power_off tr' log d) ∧
    ((∃ log', ssd1306_update tr log d = .ok (log', d)) ∧
      (ssd1306_set_contrast tr log d value).2 = d ∧
      (ssd1306_invert_display tr log d invert).2 = d ∧
      (ssd1306_power_on tr log d).2 = d ∧
      (ssd1306_power_off tr log d).2 = d) := by
  obtain ⟨hw, hh, _, buf, hb, hlen, _⟩ := hd
  refine ⟨⟨rfl, rfl, rfl, ?_, rfl, rfl⟩, ⟨_, update_eq tr log d buf hw hh hb hlen⟩, rfl, ?_, rfl, rfl⟩
  · cases invert <;> rfl
  · cases invert <;> rfl

/-- An instance of the theorem on discarded transport results: the 16x8 display with a failing
and a working transport. -/
theorem transport_result_discarded_witness :
    WF demo_display ∧
    ((ssd1306_init failing_transport (fun _ => none) [] demo_display 1 8 16 0x3C false =
        ssd1306_init working_transport (fun _ => none) [] demo_display 1 8 16 0x3C false ∧
      ssd1306_update failing_transport [] demo_display =
        ssd1306_update working_transport [] demo_display ∧
      ssd1306_set_contrast failing_transport [] demo_display 10 =
        ssd1306_set_contrast working_transport [] demo_display 10 ∧
      ssd1306_invert_display failing_transport [] demo_display true =
        ssd1306_invert_display working_transport [] demo_display true ∧
      ssd1306_power_on failing_transport [] demo_display =
        ssd1306_power_on working_transport [] demo_display ∧
      ssd1306_power_off failing_transport [] demo_display =
        ssd1306_power_off working_transport [] demo_display) ∧
    ((∃ log', ssd1306_update failing_transport [] demo_display = .ok (log', demo_display)) ∧
      (ssd1306_set_contrast failing_transport [] demo_display 10).2 = demo_display ∧
      (ssd1306_invert_display failing_transport [] demo_display true).2 = demo_display ∧
      (ssd1306_power_on failing_transport [] demo_display).2 = demo_display ∧
      (ssd1306_power_off failing_transport [] demo_display).2 = demo_display)) :=
  ⟨demo_display_wf,
    transport_result_discarded failing_transport working_transport (fun _ => none) []
      demo_display 1 8 16 0x3C 10 false true demo_display_wf⟩

/-- Every pixel of the 16x8 display is off. -/
theorem demo_display_off (px py : Nat) : pixel demo_display px py = false := by
  simp only [pixel, demo_display]
  rw [getD_replicate_zero, Nat.zero_testBit]

/-- An instance of the theorem on filled rectangles: corners `(6, 5)` and `(2, 1)` on the 16x8
display. -/
theorem draw_filled_rectangle_spec_witness :
    (WF demo_display ∧ 6 < 256 ∧ 5 < 256 ∧ 2 < 256 ∧ 1 < 256) ∧
    ((∃ d', ssd1306_draw_filled_rectangle demo_display 6 5 2 1 = .ok d' ∧
        SameConfig demo_display d' ∧
        ∀ px py, px < demo_display.width → py < demo_display.height →
          pixel d' px py =
            if min 6 2 ≤ px ∧ px < max 6 2 ∧ min 5 1 ≤ py ∧ py < max 5 1 then true
            else pixel demo_display px py) ∧
      ((∀ px py, px < demo_display.width → py < demo_display.height →
          pixel demo_display px py = false) →
        ∃ d', ssd1306_draw_filled_rectangle demo_display 2 2 6 6 = .ok d' ∧
          ∀ px py, px < demo_display.width → py < demo_display.height →
            (pixel d' px py = true ↔ (2 ≤ px ∧ px < 6 ∧ 2 ≤ py ∧ py < 6)))) :=
  ⟨⟨demo_display_wf, by decide, by decide, by decide, by decide⟩,
    draw_filled_rectangle_spec demo_display 6 5 2 1 demo_display_wf (by decide) (by decide)
      (by decide) (by decide)⟩

/-- An instance of the theorem on empty rectangles: corners `(10, 6)` and `(0, 1)` on the 16x8
display. -/
theorem draw_empty_rectangle_spec_witness :
    (WF demo_display ∧ 256 ≤ 256 ∧ 10 < 256 ∧ 6 < 256 ∧ 0 < 256 ∧ 1 < 256 ∧
      ∀ px py, px < demo_display.width → py < demo_display.height →
        pixel demo_display px py = false) ∧
    ∃ d', ssd1306_draw_empty_rectangle 256 demo_display 10 6 0 1 = .ok d' ∧
      SameConfig demo_display d' ∧
      ∀ px py, px < demo_display.width → py < demo_display.height →
        (pixel d' px py = true ↔
          (min 10 0 ≤ px ∧ px ≤ max 10 0 ∧ min 6 1 ≤ py ∧ py ≤ max 6 1 ∧
            (px = 10 ∨ px = 0 ∨ py = 6 ∨ py = 1))) :=
  ⟨⟨demo_display_wf, by decide, by decide, by decide, by decide, by decide,
      fun px py _ _ => demo_display_off px py⟩,
    draw_empty_rectangle_spec demo_display 256 10 6 0 1 demo_display_wf (by decide) (by decide)
      (by decide) (by decide) (by decide) (fun px py _ _ => demo_display_off px py)⟩

/-! ## Clearing, unsupported characters and axis-aligned lines -/

/-- C11: `ssd1306_clear_rectangle` turns off exactly the in-bounds pixels `(x, y)`
with `x < x1 - x0` and `y < y1 - y0`, a box of the requested size anchored at the origin of the
buffer and not at `(x0, y0)`, every other pixel keeping its value; when `x1 ≤ x0` or `y1 ≤ y0`
the display is returned unchanged. -/
theorem clear_rectangle_spec (d : ssd1306_t) (x0 y0 x1 y1 : Nat) (hd : WF d)
    (hx1 : x1 < 256) (hy1 : y1 < 256) :
    (∃ d', ssd1306_clear_rectangle d x0 y0 x1 y1 = .ok d' ∧ SameConfig d d' ∧
      ∀ px py, px < d.width → py < d.height →
        pixel d' px py =
          if (px : Int) < (x1 : Int) - x0 ∧ (py : Int) < (y1 : Int) - y0 then false
          else pixel d px py) ∧
    (x1 ≤ x0 ∨ y1 ≤ y0 → ssd1306_clear_rectangle d x0 y0 x1 y1 = .ok d) := by
  constructor
  · obtain ⟨d', hrun, hc, hp⟩ := paint_loop (fun _ _ => false)
      (fun d x y => ssd1306_draw_pixel d (x % 256) (y % 256) false)
      0 ((x1 : Int) - x0).toNat 0 ((y1 : Int) - y0).toNat
      (by
        intro d' k l _ hk _ hl
        show ssd1306_draw_pixel d' (k % 256) (l % 256) false = _
        rw [Nat.mod_eq_of_lt (by omega), Nat.mod_eq_of_lt (by omega)])
      d hd
    refine ⟨d', hrun, hc, ?_⟩
    intro px py hpx hpy
    rw [hp px py hpx hpy]
    by_cases a : (px : Int) < (x1 : Int) - x0 ∧ (py : Int) < (y1 : Int) - y0
    · rw [if_pos a, if_pos (by omega)]
    · rw [if_neg a, if_neg (by omega)]
  · intro h
    unfold ssd1306_clear_rectangle
    apply for_loop_noop
    intro x _ hx
    apply for_loop_noop
    intro y _ hy
    omega

/-- An instance of the theorem on `ssd1306_clear_rectangle`: the call `(1, 2, 3, 4)` on the 16x8
display with every pixel on. -/
theorem clear_rectangle_spec_witness :
    (WF demo_display_on ∧ 3 < 256 ∧ 4 < 256) ∧
    ((∃ d', ssd1306_clear_rectangle demo_display_on 1 2 3 4 = .ok d' ∧
        SameConfig demo_display_on d' ∧
        ∀ px py, px < demo_display_on.width → py < demo_display_on.height →
          pixel d' px py =
            if (px : Int) < ((3 : Nat) : Int) - (1 : Nat) ∧ (py : Int) < ((4 : Nat) : Int) - (2 : Nat)
            then false
            else pixel demo_display_on px py) ∧
      (3 ≤ 1 ∨ 4 ≤ 2 → ssd1306_clear_rectangle demo_display_on 1 2 3 4 = .ok demo_display_on)) :=
  ⟨⟨⟨by decide, by decide, by decide, List.replicate 16 255, rfl, by decide, by decide⟩,
      by decide, by decide⟩,
    clear_rectangle_spec demo_display_on 1 2 3 4
      ⟨by decide, by decide, by decide, List.replicate 16 255, rfl, by decide, by decide⟩
      (by decide) (by decide)⟩

/-- C12 (code defect): on a 16x8 display with every pixel on,
`ssd1306_clear_rectangle(2, 2, 4, 4)` clears the 2x2 block at the origin (columns 0 and 1, rows
0 and 1) and leaves the pixels `(2,2)`, `(3,2)`, `(2,3)`, `(3,3)` of the rectangle from `(2,2)`
to `(4,4)` on. -/
theorem clear_rectangle_ignores_origin :
    ssd1306_clear_rectangle demo_display_on 2 2 4 4 =
      .ok { demo_display_on with
            buffer := some [252, 252, 255, 255, 255, 255, 255, 255,
                            255, 255, 255, 255, 255, 255, 255, 255] } ∧
    pixel { demo_display_on with
            buffer := some [252, 252, 255, 255, 255, 255, 255, 255,
                            255, 255, 255, 255, 255, 255, 255, 255] } 2 2 = true ∧
    pixel { demo_display_on with
            buffer := some [252, 252, 255, 255, 255, 255, 255, 255,
                            255, 255, 255, 255, 255, 255, 255, 255] } 3 3 = true ∧
    pixel { demo_display_on with
            buffer := some [252, 252, 255, 255, 255, 255, 255, 255,
                            255, 255, 255, 255, 255, 255, 255, 255] } 0 0 = false :=
  ⟨rfl, by decide, by decide, by decide⟩

/-- C13: for a display whose buffer has `width*height/8` bytes,
`ssd1306_clear_display` returns, every byte of the framebuffer is zero afterwards, the length of
the buffer is unchanged and every coordinate reads back off. -/
theorem clear_display_spec (d : ssd1306_t) (buf : List Nat) (hb : d.buffer = some buf)
    (hlen : buf.length = d.width * d.height / 8) :
    ∃ buf', ssd1306_clear_display d = .ok { d with buffer := some buf' } ∧
      buf'.length = buf.length ∧ (∀ b ∈ buf', b = 0) ∧
      ∀ x y, pixel { d with buffer := some buf' } x y = false := by
  refine ⟨List.replicate (d.width * d.height / 8) 0, clear_display_eq d buf hb hlen,
    by simp [hlen], ?_, ?_⟩
  · intro b hbm
    exact (List.mem_replicate.mp hbm).2
  · intro x y
    simp only [pixel]
    rw [getD_replicate_zero, Nat.zero_testBit]

/-- An instance of the theorem on `ssd1306_clear_display`: the 16x8 display with every pixel
on. -/
theorem clear_display_spec_witness :
    (demo_display_on.buffer = some (List.replicate 16 255) ∧
      (List.replicate 16 255).length = demo_display_on.width * demo_display_on.height / 8) ∧
    ∃ buf', ssd1306_clear_display demo_display_on = .ok { demo_display_on with buffer := some buf' } ∧
      buf'.length = (List.replicate 16 255).length ∧ (∀ b ∈ buf', b = 0) ∧
      ∀ x y, pixel { demo_display_on with buffer := some buf' } x y = false :=
  ⟨⟨rfl, by decide⟩, clear_display_spec demo_display_on (List.replicate 16 255) rfl (by decide)⟩

/-- C14: for a glyph table with its 5-byte header and a character `c` outside the
declared range `[font[3], font[4]]`, `ssd1306_draw_char` returns the display unchanged, whatever
the position. -/
theorem draw_char_unsupported (font : List Nat) (d : ssd1306_t) (c x y : Nat)
    (hlen : 5 ≤ font.length) (hc : c < font.getD 3 0 ∨ font.getD 4 0 < c) :
    ssd1306_draw_char font d c x y = .ok d := by
  unfold ssd1306_draw_char
  rw [font_read_ok font 3 (by omega), bind_ok_eq]
  by_cases h1 : c < font.getD 3 0
  · rw [if_pos h1]; rfl
  · rw [if_neg h1, font_read_ok font 4 (by omega), bind_ok_eq, if_pos (by omega)]; rfl

/-- An instance of the theorem on unsupported characters: `A` is outside the range of the
two-glyph table. -/
theorem draw_char_unsupported_witness :
    (5 ≤ demo_font.length ∧ (65 < demo_font.getD 3 0 ∨ demo_font.getD 4 0 < 65)) ∧
    ssd1306_draw_char demo_font demo_display_on 65 2 0 = .ok demo_display_on :=
  ⟨⟨by decide, by decide⟩,
    draw_char_unsupported demo_font demo_display_on 65 2 0 (by decide) (by decide)⟩

/-- C15: on an all-off buffer, with enough iterations, `ssd1306_draw_line` on a
horizontal or vertical segment (end points in either order) turns on exactly the pixels of the
segment between the end points, inclusive, and no other pixel; `drawLine(0,0,4,0)` turns on
exactly `(0,0)`, `(1,0)`, `(2,0)`, `(3,0)`, `(4,0)`. -/
theorem draw_line_axis_aligned_spec (d : ssd1306_t) (fuel x0 y0 x1 y1 : Nat) (hd : WF d)
    (hf : 256 ≤ fuel) (hx0 : x0 < 256) (hy0 : y0 < 256) (hx1 : x1 < 256) (hy1 : y1 < 256)
    (haxis : y0 = y1 ∨ x0 = x1)
    (hoff : ∀ px py, px < d.width → py < d.height → pixel d px py = false) :
    (∃ d', ssd1306_draw_line fuel d x0 y0 x1 y1 = .ok d' ∧ SameConfig d d' ∧
      ∀ px py, px < d.width → py < d.height →
        (pixel d' px py = true ↔
          (min x0 x1 ≤ px ∧ px ≤ max x0 x1 ∧ min y0 y1 ≤ py ∧ py ≤ max y0 y1))) ∧
    (∃ d', ssd1306_draw_line fuel d (0 : Nat) (0 : Nat) (4 : Nat) (0 : Nat) = .ok d' ∧
      ∀ px py, px < d.width → py < d.height →
        (pixel d' px py = true ↔ (py = 0 ∧ px ≤ 4))) := by
  have hmin : ∀ a b p : Nat, min a b ≤ p ↔ (a ≤ p ∨ b ≤ p) := by
    intro a b p
    rcases Nat.le_total a b with h | h
    · rw [Nat.min_eq_left h]; omega
    · rw [Nat.min_eq_right h]; omega
  have hmax : ∀ a b p : Nat, p ≤ max a b ↔ (p ≤ a ∨ p ≤ b) := by
    intro a b p
    rcases Nat.le_total a b with h | h
    · rw [Nat.max_eq_right h]; omega
    · rw [Nat.max_eq_left h]; omega
  constructor
  · rcases haxis with rfl | rfl
    · obtain ⟨d', hrun, hc, hp⟩ := draw_line_horizontal d hd fuel x0 x1 y0 hf hx0 hx1 hy0
      refine ⟨d', hrun, hc, ?_⟩
      intro px py hpx hpy
      rw [hp px py hpx hpy, hoff px py hpx hpy, hmin, hmax, hmin, hmax]
      by_cases a : py = y0 ∧ ((x0 ≤ px ∧ px ≤ x1) ∨ (x1 ≤ px ∧ px ≤ x0))
      · rw [if_pos a]; simp only [true_iff]; omega
      · rw [if_neg a]; simp only [Bool.false_eq_true, false_iff]; omega
    · obtain ⟨d', hrun, hc, hp⟩ := draw_line_vertical d hd fuel x0 y0 y1 hf hx0 hy0 hy1
      refine ⟨d', hrun, hc, ?_⟩
      intro px py hpx hpy
      rw [hp px py hpx hpy, hoff px py hpx hpy, hmin, hmax, hmin, hmax]
      by_cases a : px = x0 ∧ ((y0 ≤ py ∧ py ≤ y1) ∨ (y1 ≤ py ∧ py ≤ y0))
      · rw [if_pos a]; simp only [true_iff]; omega
      · rw [if_neg a]; simp only [Bool.false_eq_true, false_iff]; omega
  · obtain ⟨d', hrun, _, hp⟩ := draw_line_horizontal d hd fuel 0 4 0 hf (by omega) (by omega)
      (by omega)
    refine ⟨d', hrun, ?_⟩
    intro px py hpx hpy
    rw [hp px py hpx hpy, hoff px py hpx hpy]
    by_cases a : py = 0 ∧ ((0 ≤ px ∧ px ≤ 4) ∨ (4 ≤ px ∧ px ≤ 0))
    · rw [if_pos a]; simp only [true_iff]; omega
    · rw [if_neg a]; simp only [Bool.false_eq_true, false_iff]; omega

/-- An instance of the theorem on axis-aligned lines: the vertical segment from `(7, 3)` to
`(7, 1)` on the 16x8 display. -/
theorem draw_line_axis_aligned_spec_witness :
    (WF demo_display ∧ 256 ≤ 256 ∧ 7 < 256 ∧ 3 < 256 ∧ 7 < 256 ∧ 1 < 256 ∧ (3 = 1 ∨ 7 = 7) ∧
      ∀ px py, px < demo_display.width → py < demo_display.height →
        pixel demo_display px py = false) ∧
    ((∃ d', ssd1306_draw_line 256 demo_display (7 : Nat) (3 : Nat) (7 : Nat) (1 : Nat) = .ok d' ∧
        SameConfig demo_display d' ∧
        ∀ px py, px < demo_display.width → py < demo_display.height →
          (pixel d' px py = true ↔
            (min 7 7 ≤ px ∧ px ≤ max 7 7 ∧ min 3 1 ≤ py ∧ py ≤ max 3 1))) ∧
      (∃ d', ssd1306_draw_line 256 demo_display (0 : Nat) (0 : Nat) (4 : Nat) (0 : Nat) = .ok d' ∧
        ∀ px py, px < demo_display.width → py < demo_display.height →
          (pixel d' px py = true ↔ (py = 0 ∧ px ≤ 4)))) :=
  ⟨⟨demo_display_wf, by decide, by decide, by decide, by decide, by decide, by decide,
      fun px py _ _ => demo_display_off px py⟩,
    draw_line_axis_aligned_spec demo_display 256 7 3 7 1 demo_display_wf (by decide) (by decide)
      (by decide) (by decide) (by decide) (by decide) (fun px py _ _ => demo_display_off px py)⟩

/-! ## Bresenham rasterization -/

theorem plot_points_nil (d : ssd1306_t) : plot_points d [] = .ok d := rfl

theorem plot_points_cons (d : ssd1306_t) (p : Int × Int) (pts : List (Int × Int)) :
    plot_points d (p :: pts) =
      match ssd1306_draw_pixel d (u8 p.1) (u8 p.2) true with
      | .error e => .error e
      | .ok d1 => plot_points d1 pts := by
  unfold plot_points
  rw [List.foldlM_cons]
  cases ssd1306_draw_pixel d (u8 p.1) (u8 p.2) true <;> rfl

/-- The loop of `ssd1306_draw_line` plots the points of `line_points_loop`, in order. -/
theorem draw_line_loop_eq_plot (x1 y1 dx dy sx sy : Int) :
    ∀ (fuel : Nat) (d : ssd1306_t) (x0 y0 err : Int) (pts : List (Int × Int)),
      line_points_loop x1 y1 dx dy sx sy fuel x0 y0 err = some pts →
      draw_line_loop x1 y1 dx dy sx sy fuel d x0 y0 err = plot_points d pts := by
  intro fuel
  induction fuel with
  | zero =>
    intro d x0 y0 err pts h
    rw [line_points_loop] at h
    exact Option.noConfusion h
  | succ fuel ih =>
    intro d x0 y0 err pts h
    rw [line_points_loop] at h
    rw [draw_line_loop]
    by_cases hend : x0 = x1 ∧ y0 = y1
    · rw [if_pos hend] at h
      have hp : pts = [(x0, y0)] := (Option.some.inj h).symm
      subst hp
      rw [plot_points_cons]
      cases ssd1306_draw_pixel d (u8 (x0, y0).1) (u8 (x0, y0).2) true with
      | error e => rfl
      | ok d1 => simp only [if_pos hend]; rfl
    · rw [if_neg hend] at h
      simp only [] at h
      cases hrec : line_points_loop x1 y1 dx dy sx sy fuel
          (if wrap16 (2 * err) > -dy then wrap16 (x0 + sx) else x0)
          (if wrap16 (2 * err) < dx then wrap16 (y0 + sy) else y0)
          (if wrap16 (2 * err) < dx then
            wrap16 ((if wrap16 (2 * err) > -dy then wrap16 (err - dy) else err) + dx)
           else (if wrap16 (2 * err) > -dy then wrap16 (err - dy) else err)) with
      | none =>
        rw [hrec] at h
        exact Option.noConfusion h
      | some rest =>
        rw [hrec] at h
        have hp : pts = (x0, y0) :: rest := (Option.some.inj h).symm
        subst hp
        rw [plot_points_cons]
        cases ssd1306_draw_pixel d (u8 (x0, y0).1) (u8 (x0, y0).2) true with
        | error e => rfl
        | ok d1 =>
          simp only [if_neg hend]
          exact ih d1 _ _ _ rest hrec

/-- The function `ssd1306_draw_line` plots the points of `line_points`, in order. -/
theorem draw_line_eq_plot (fuel : Nat) (d : ssd1306_t) (x0 y0 x1 y1 : Int)
    (pts : List (Int × Int)) (h : line_points fuel x0 y0 x1 y1 = some pts) :
    ssd1306_draw_line fuel d x0 y0 x1 y1 = plot_points d pts :=
  draw_line_loop_eq_plot _ _ _ _ _ _ fuel d x0 y0 _ pts h

theorem u8_natCast (n : Nat) (h : n < 256) : u8 (n : Int) = n := by
  unfold u8
  omega

theorem line_points_loop_last (x1 y1 dx dy sx sy : Int) (fuel : Nat) (err : Int) :
    line_points_loop x1 y1 dx dy sx sy (fuel + 1) x1 y1 err = some [(x1, y1)] := by
  rw [line_points_loop]
  simp

theorem line_points_loop_step (x1 y1 dx dy sx sy : Int) (fuel : Nat) (x0 y0 err : Int)
    (x' y' e' : Int) (rest : List (Int × Int)) (hne : ¬ (x0 = x1 ∧ y0 = y1))
    (hx : (if wrap16 (2 * err) > -dy then wrap16 (x0 + sx) else x0) = x')
    (hy : (if wrap16 (2 * err) < dx then wrap16 (y0 + sy) else y0) = y')
    (he : (if wrap16 (2 * err) < dx then
            wrap16 ((if wrap16 (2 * err) > -dy then wrap16 (err - dy) else err) + dx)
           else (if wrap16 (2 * err) > -dy then wrap16 (err - dy) else err)) = e')
    (hrec : line_points_loop x1 y1 dx dy sx sy fuel x' y' e' = some rest) :
    line_points_loop x1 y1 dx dy sx sy (fuel + 1) x0 y0 err = some ((x0, y0) :: rest) := by
  rw [line_points_loop, if_neg hne]
  simp only [hx, hy, he, hrec]

/-- The points recorded after one more iteration: length, first and last point, chain. -/
theorem points_cons {R : Int × Int → Int × Int → Prop} (p q last : Int × Int)
    (rest : List (Int × Int)) (n : Nat) (hlen : rest.length = n + 1)
    (hhead : rest.head? = some q) (hlast : rest.getLast? = some last) (hch : List.Chain' R rest)
    (hR : R p q) :
    (p :: rest).length = n + 1 + 1 ∧ (p :: rest).head? = some p ∧
      (p :: rest).getLast? = some last ∧ List.Chain' R (p :: rest) := by
  refine ⟨by simp [hlen], rfl, ?_, ?_⟩
  · rw [List.getLast?_cons, hlast]; rfl
  · rw [List.chain'_cons']
    refine ⟨?_, hch⟩
    intro b hb
    rw [hhead] at hb
    cases hb
    exact hR

theorem xmajor_loop (x1 y1 dx dy sx sy : Int) (hsx : sx = 1 ∨ sx = -1) (hsy : sy = 1 ∨ sy = -1)
    (hx1 : 0 ≤ x1 ∧ x1 < 256) (hy1 : 0 ≤ y1 ∧ y1 < 256) (hdx : 0 < dx ∧ dx < 256)
    (hdy : 0 ≤ dy ∧ dy ≤ dx) :
    ∀ (rx fuel ry : Nat) (x y e : Int), rx < fuel → x1 = x + sx * rx → y1 = y + sy * ry →
      (rx : Int) ≤ dx → (ry : Int) ≤ dy → e = dx - dy + rx * dy - ry * dx →
      -dy < 2 * e → 2 * e < 3 * dx - 2 * dy →
      ∃ pts, line_points_loop x1 y1 dx dy sx sy fuel x y e = some pts ∧
        pts.length = rx + 1 ∧ pts.head? = some (x, y) ∧ pts.getLast? = some (x1, y1) ∧
        List.Chain' (XStep sx sy) pts := by
  intro rx
  induction rx with
  | zero =>
    intro fuel ry x y e hf hx hy _ hry he hlo _
    obtain ⟨f, rfl⟩ : ∃ f, fuel = f + 1 := ⟨fuel - 1, by omega⟩
    have hxe : x = x1 := by simp at hx; omega
    have hry0 : ry = 0 := by
      by_contra hne
      have h1 : (1 : Int) ≤ ry := by omega
      have h2 : (1 : Int) * dx ≤ ry * dx := mul_le_mul_of_nonneg_right h1 (by omega)
      have h3 : ((0 : Nat) : Int) * dy = 0 := by simp
      omega
    subst hry0
    have hye : y = y1 := by simp at hy; omega
    subst hxe hye
    exact ⟨_, line_points_loop_last _ _ _ _ _ _ f e, rfl, rfl, rfl, List.chain'_singleton _⟩
  | succ n ih =>
    intro fuel ry x y e hf hx hy hrx hry he hlo hhi
    obtain ⟨f, rfl⟩ : ∃ f, fuel = f + 1 := ⟨fuel - 1, by omega⟩
    have hP : ((n + 1 : Nat) : Int) * dy = n * dy + dy := by push_cast; ring
    rw [hP] at he
    have hPn : (0 : Int) ≤ n * dy := mul_nonneg (by omega) hdy.1
    have hxs : x ≠ x1 ∧ x1 = (x + sx) + sx * n ∧ -300 ≤ x ∧ x ≤ 600 := by
      rcases hsx with rfl | rfl <;> (push_cast at hx hrx; omega)
    have hys : -300 ≤ y ∧ y ≤ 600 := by
      rcases hsy with rfl | rfl <;> omega
    have hne : ¬ (x = x1 ∧ y = y1) := fun h => hxs.1 h.1
    have e2 : wrap16 (2 * e) = 2 * e := wrap16_id _ (by omega) (by omega)
    have c1 : wrap16 (2 * e) > -dy := by rw [e2]; omega
    have ea : wrap16 (e - dy) = e - dy := wrap16_id _ (by omega) (by omega)
    have xa : wrap16 (x + sx) = x + sx := by
      apply wrap16_id <;> (rcases hsx with rfl | rfl <;> omega)
    by_cases c2 : 2 * e < dx
    · have c2' : wrap16 (2 * e) < dx := by rw [e2]; exact c2
      obtain ⟨m, rfl⟩ : ∃ m, ry = m + 1 := by
        refine ⟨ry - 1, ?_⟩
        by_contra hne'
        have h0 : ry = 0 := by omega
        have hQ0 : (ry : Int) * dx = 0 := by rw [h0]; simp
        omega
      have hQ : ((m + 1 : Nat) : Int) * dx = m * dx + dx := by push_cast; ring
      rw [hQ] at he
      have eb : wrap16 (e - dy + dx) = e - dy + dx := wrap16_id _ (by omega) (by omega)
      have yb : wrap16 (y + sy) = y + sy := by
        apply wrap16_id <;> (rcases hsy with rfl | rfl <;> omega)
      obtain ⟨rest, hrec, hlen, hhead, hlast, hch⟩ := ih f m (x + sx) (y + sy) (e - dy + dx)
        (by omega) hxs.2.1
        (by rcases hsy with rfl | rfl <;> (push_cast at hy; omega))
        (by push_cast at hrx; omega) (by push_cast at hry; omega) (by omega) (by omega) (by omega)
      refine ⟨(x, y) :: rest, ?_, points_cons (x, y) (x + sx, y + sy) (x1, y1) rest n hlen hhead
        hlast hch ⟨rfl, Or.inr rfl⟩⟩
      exact line_points_loop_step _ _ _ _ _ _ f x y e _ _ _ rest hne
        (by rw [if_pos c1, xa]) (by rw [if_pos c2', yb]) (by rw [if_pos c2', if_pos c1, ea, eb])
        hrec
    · have c2' : ¬ wrap16 (2 * e) < dx := by rw [e2]; exact c2
      obtain ⟨rest, hrec, hlen, hhead, hlast, hch⟩ := ih f ry (x + sx) y (e - dy)
        (by omega) hxs.2.1 hy (by push_cast at hrx; omega) hry (by omega) (by omega) (by omega)
      refine ⟨(x, y) :: rest, ?_, points_cons (x, y) (x + sx, y) (x1, y1) rest n hlen hhead
        hlast hch ⟨rfl, Or.inl rfl⟩⟩
      exact line_points_loop_step _ _ _ _ _ _ f x y e _ _ _ rest hne
        (by rw [if_pos c1, xa]) (by rw [if_neg c2']) (by rw [if_neg c2', if_pos c1, ea])
        hrec


theorem ymajor_loop (x1 y1 dx dy sx sy : Int) (hsx : sx = 1 ∨ sx = -1) (hsy : sy = 1 ∨ sy = -1)
    (hx1 : 0 ≤ x1 ∧ x1 < 256) (hy1 : 0 ≤ y1 ∧ y1 < 256) (hdx : 0 ≤ dx ∧ dx < dy)
    (hdy : dy < 256) :
    ∀ (ry fuel rx : Nat) (x y e : Int), ry < fuel → x1 = x + sx * rx → y1 = y + sy * ry →
      (rx : Int) ≤ dx → (ry : Int) ≤ dy → e = dx - dy + rx * dy - ry * dx →
      2 * dx - 3 * dy < 2 * e → 2 * e < dx →
      ∃ pts, line_points_loop x1 y1 dx dy sx sy fuel x y e = some pts ∧
        pts.length = ry + 1 ∧ pts.head? = some (x, y) ∧ pts.getLast? = some (x1, y1) ∧
        List.Chain' (YStep sx sy) pts := by
  intro ry
  induction ry with
  | zero =>
    intro fuel rx x y e hf hx hy hrx _ he _ hhi
    obtain ⟨f, rfl⟩ : ∃ f, fuel = f + 1 := ⟨fuel - 1, by omega⟩
    have hye : y = y1 := by simp at hy; omega
    have hrx0 : rx = 0 := by
      by_contra hne
      have h1 : (1 : Int) ≤ rx := by omega
      have h2 : (1 : Int) * dy ≤ rx * dy := mul_le_mul_of_nonneg_right h1 (by omega)
      have h3 : ((0 : Nat) : Int) * dx = 0 := by simp
      omega
    subst hrx0
    have hxe : x = x1 := by simp at hx; omega
    subst hxe hye
    exact ⟨_, line_points_loop_last _ _ _ _ _ _ f e, rfl, rfl, rfl, List.chain'_singleton _⟩
  | succ n ih =>
    intro fuel rx x y e hf hx hy hrx hry he hlo hhi
    obtain ⟨f, rfl⟩ : ∃ f, fuel = f + 1 := ⟨fuel - 1, by omega⟩
    have hQ : ((n + 1 : Nat) : Int) * dx = n * dx + dx := by push_cast; ring
    rw [hQ] at he
    have hQn : (0 : Int) ≤ n * dx := mul_nonneg (by omega) hdx.1
    have hys : y ≠ y1 ∧ y1 = (y + sy) + sy * n ∧ -300 ≤ y ∧ y ≤ 600 := by
      rcases hsy with rfl | rfl <;> (push_cast at hy hry; omega)
    have hxs : -300 ≤ x ∧ x ≤ 600 := by
      rcases hsx with rfl | rfl <;> omega
    have hne : ¬ (x = x1 ∧ y = y1) := fun h => hys.1 h.2
    have e2 : wrap16 (2 * e) = 2 * e := wrap16_id _ (by omega) (by omega)
    have c2 : wrap16 (2 * e) < dx := by rw [e2]; omega
    have yb : wrap16 (y + sy) = y + sy := by
      apply wrap16_id <;> (rcases hsy with rfl | rfl <;> omega)
    by_cases c1 : 2 * e > -dy
    · have c1' : wrap16 (2 * e) > -dy := by rw [e2]; exact c1
      obtain ⟨m, rfl⟩ : ∃ m, rx = m + 1 := by
        refine ⟨rx - 1, ?_⟩
        by_contra hne'
        have h0 : rx = 0 := by omega
        have hP0 : (rx : Int) * dy = 0 := by rw [h0]; simp
        omega
      have hP : ((m + 1 : Nat) : Int) * dy = m * dy + dy := by push_cast; ring
      rw [hP] at he
      have ea : wrap16 (e - dy) = e - dy := wrap16_id _ (by omega) (by omega)
      have eb : wrap16 (e - dy + dx) = e - dy + dx := wrap16_id _ (by omega) (by omega)
      have xa : wrap16 (x + sx) = x + sx := by
        apply wrap16_id <;> (rcases hsx with rfl | rfl <;> omega)
      obtain ⟨rest, hrec, hlen, hhead, hlast, hch⟩ := ih f m (x + sx) (y + sy) (e - dy + dx)
        (by omega)
        (by rcases hsx with rfl | rfl <;> (push_cast at hx; omega))
        hys.2.1
        (by push_cast at hrx; omega) (by push_cast at hry; omega) (by omega) (by omega) (by omega)
      refine ⟨(x, y) :: rest, ?_, points_cons (x, y) (x + sx, y + sy) (x1, y1) rest n hlen hhead
        hlast hch ⟨rfl, Or.inr rfl⟩⟩
      exact line_points_loop_step _ _ _ _ _ _ f x y e _ _ _ rest hne
        (by rw [if_pos c1', xa]) (by rw [if_pos c2, yb]) (by rw [if_pos c2, if_pos c1', ea, eb])
        hrec
    · have c1' : ¬ wrap16 (2 * e) > -dy := by rw [e2]; exact c1
      have eb : wrap16 (e + dx) = e + dx := wrap16_id _ (by omega) (by omega)
      obtain ⟨rest, hrec, hlen, hhead, hlast, hch⟩ := ih f rx x (y + sy) (e + dx)
        (by omega) hx hys.2.1 hrx (by push_cast at hry; omega) (by omega) (by omega) (by omega)
      refine ⟨(x, y) :: rest, ?_, points_cons (x, y) (x, y + sy) (x1, y1) rest n hlen hhead
        hlast hch ⟨rfl, Or.inl rfl⟩⟩
      exact line_points_loop_step _ _ _ _ _ _ f x y e _ _ _ rest hne
        (by rw [if_neg c1']) (by rw [if_pos c2, yb]) (by rw [if_pos c2, if_neg c1', eb])
        hrec


/-- The rasterization of a line with `uint8_t` end points: it is complete within 256
iterations, starts at `(x0, y0)`, ends at `(x1, y1)` and advances the major axis at every
step. -/
theorem line_points_uint8 (fuel x0 y0 x1 y1 : Nat) (hf : 256 ≤ fuel) (hx0 : x0 < 256)
    (hy0 : y0 < 256) (hx1 : x1 < 256) (hy1 : y1 < 256) :
    ∃ pts, line_points fuel x0 y0 x1 y1 = some pts ∧
      pts.head? = some ((x0 : Int), (y0 : Int)) ∧ pts.getLast? = some ((x1 : Int), (y1 : Int)) ∧
      (((y1 : Int) - y0).natAbs ≤ ((x1 : Int) - x0).natAbs →
        pts.length = ((x1 : Int) - x0).natAbs + 1 ∧
        List.Chain' (XStep (if (x0 : Int) < x1 then 1 else -1)
          (if (y0 : Int) < y1 then 1 else -1)) pts) ∧
      (((x1 : Int) - x0).natAbs < ((y1 : Int) - y0).natAbs →
        pts.length = ((y1 : Int) - y0).natAbs + 1 ∧
        List.Chain' (YStep (if (x0 : Int) < x1 then 1 else -1)
          (if (y0 : Int) < y1 then 1 else -1)) pts) := by
  unfold line_points
  have hdx : wrap16 (((x1 : Int) - x0).natAbs) = ((x1 : Int) - x0).natAbs :=
    wrap16_id _ (by omega) (by omega)
  have hdy : wrap16 (((y1 : Int) - y0).natAbs) = ((y1 : Int) - y0).natAbs :=
    wrap16_id _ (by omega) (by omega)
  have herr : wrap16 ((((x1 : Int) - x0).natAbs : Int) - (((y1 : Int) - y0).natAbs : Int)) =
      (((x1 : Int) - x0).natAbs : Int) - (((y1 : Int) - y0).natAbs : Int) :=
    wrap16_id _ (by omega) (by omega)
  simp only [hdx, hdy, herr]
  have hsx : (if (x0 : Int) < x1 then (1 : Int) else -1) = 1 ∨
      (if (x0 : Int) < x1 then (1 : Int) else -1) = -1 := by split <;> simp
  have hsy : (if (y0 : Int) < y1 then (1 : Int) else -1) = 1 ∨
      (if (y0 : Int) < y1 then (1 : Int) else -1) = -1 := by split <;> simp
  have hxrel : (x1 : Int) = x0 + (if (x0 : Int) < x1 then (1 : Int) else -1) *
      (((x1 : Int) - x0).natAbs : Nat) := by split <;> omega
  have hyrel : (y1 : Int) = y0 + (if (y0 : Int) < y1 then (1 : Int) else -1) *
      (((y1 : Int) - y0).natAbs : Nat) := by split <;> omega
  have hformula : ((((x1 : Int) - x0).natAbs : Nat) : Int) - (((y1 : Int) - y0).natAbs : Nat) =
      (((x1 : Int) - x0).natAbs : Nat) - (((y1 : Int) - y0).natAbs : Nat)
        + (((x1 : Int) - x0).natAbs : Nat) * ((((y1 : Int) - y0).natAbs : Nat) : Int)
        - (((y1 : Int) - y0).natAbs : Nat) * ((((x1 : Int) - x0).natAbs : Nat) : Int) := by ring
  by_cases hmaj : ((y1 : Int) - y0).natAbs ≤ ((x1 : Int) - x0).natAbs
  · by_cases hzero : ((x1 : Int) - x0).natAbs = 0
    · have ex : (x0 : Int) = x1 := by omega
      have ey : (y0 : Int) = y1 := by omega
      obtain ⟨f, rfl⟩ : ∃ f, fuel = f + 1 := ⟨fuel - 1, by omega⟩
      refine ⟨[((x1 : Int), (y1 : Int))], ?_, ?_, rfl, ?_, ?_⟩
      · rw [ex, ey]; exact line_points_loop_last _ _ _ _ _ _ f _
      · rw [ex, ey]; rfl
      · intro _
        exact ⟨by rw [hzero]; rfl, List.chain'_singleton _⟩
      · intro h; omega
    · obtain ⟨pts, hrun, hlen, hhead, hlast, hch⟩ := xmajor_loop x1 y1
        (((x1 : Int) - x0).natAbs) (((y1 : Int) - y0).natAbs)
        (if (x0 : Int) < x1 then 1 else -1) (if (y0 : Int) < y1 then 1 else -1) hsx hsy
        ⟨by omega, by omega⟩ ⟨by omega, by omega⟩ ⟨by omega, by omega⟩ ⟨by omega, by omega⟩
        ((x1 : Int) - x0).natAbs fuel ((y1 : Int) - y0).natAbs x0 y0 _
        (by omega) hxrel hyrel (le_refl _) (le_refl _) hformula (by omega) (by omega)
      exact ⟨pts, hrun, hhead, hlast, fun _ => ⟨hlen, hch⟩, fun h => by omega⟩
  · obtain ⟨pts, hrun, hlen, hhead, hlast, hch⟩ := ymajor_loop x1 y1
      (((x1 : Int) - x0).natAbs) (((y1 : Int) - y0).natAbs)
      (if (x0 : Int) < x1 then 1 else -1) (if (y0 : Int) < y1 then 1 else -1) hsx hsy
      ⟨by omega, by omega⟩ ⟨by omega, by omega⟩ ⟨by omega, by omega⟩ (by omega)
      ((y1 : Int) - y0).natAbs fuel ((x1 : Int) - x0).natAbs x0 y0 _
      (by omega) hxrel hyrel (le_refl _) (le_refl _) hformula (by omega) (by omega)
    exact ⟨pts, hrun, hhead, hlast, fun h => by omega, fun _ => ⟨hlen, hch⟩⟩

/-- Plotting a sequence of points never faults on a well-formed display, and turns on exactly
the in-bounds pixels the points are converted to. -/
theorem plot_points_pixels (pts : List (Int × Int)) :
    ∀ (d : ssd1306_t), WF d →
      ∃ d', plot_points d pts = .ok d' ∧ SameConfig d d' ∧
        ∀ px py, px < d.width → py < d.height →
          (pixel d' px py = true ↔
            (pixel d px py = true ∨ ∃ p ∈ pts, u8 p.1 = px ∧ u8 p.2 = py)) := by
  induction pts with
  | nil =>
    intro d hd
    exact ⟨d, rfl, SameConfig.refl d hd, fun px py _ _ => by simp⟩
  | cons p rest ih =>
    intro d hd
    obtain ⟨d1, hrun1, hc1, hp1⟩ := draw_pixel_pixel d (u8 p.1) (u8 p.2) true hd
    obtain ⟨d2, hrun2, hc2, hp2⟩ := ih d1 hc1.1
    refine ⟨d2, by rw [plot_points_cons, hrun1]; exact hrun2, hc1.trans hc2, ?_⟩
    intro px py hpx hpy
    rw [hp2 px py (by rw [hc1.2.1]; exact hpx) (by rw [hc1.2.2.1]; exact hpy),
      hp1 px py hpx hpy]
    by_cases e : px = u8 p.1 ∧ py = u8 p.2
    · rw [if_pos e]
      simp only [true_or, true_iff]
      exact Or.inr ⟨p, List.mem_cons_self _ _, e.1.symm, e.2.symm⟩
    · rw [if_neg e]
      constructor
      · rintro (h | ⟨q, hq, hqe⟩)
        · exact Or.inl h
        · exact Or.inr ⟨q, List.mem_cons_of_mem _ hq, hqe⟩
      · rintro (h | ⟨q, hq, hqe⟩)
        · exact Or.inl h
        · rcases List.mem_cons.mp hq with rfl | hq'
          · exact absurd ⟨hqe.1.symm, hqe.2.symm⟩ e
          · exact Or.inr ⟨q, hq', hqe⟩


/-- C16: for end points with coordinates in 0..255 the loop of `ssd1306_draw_line`
terminates within 256 iterations; the first point it plots is `(x0, y0)` and the last one is
`(x1, y1)`, and each end point that is in bounds is on afterwards. -/
theorem draw_line_terminates (d : ssd1306_t) (fuel x0 y0 x1 y1 : Nat) (hd : WF d)
    (hf : 256 ≤ fuel) (hx0 : x0 < 256) (hy0 : y0 < 256) (hx1 : x1 < 256) (hy1 : y1 < 256) :
    ∃ pts d', line_points fuel x0 y0 x1 y1 = some pts ∧
      ssd1306_draw_line fuel d x0 y0 x1 y1 = plot_points d pts ∧
      ssd1306_draw_line fuel d x0 y0 x1 y1 = .ok d' ∧ SameConfig d d' ∧
      pts.head? = some ((x0 : Int), (y0 : Int)) ∧
      pts.getLast? = some ((x1 : Int), (y1 : Int)) ∧
      (x0 < d.width → y0 < d.height → pixel d' x0 y0 = true) ∧
      (x1 < d.width → y1 < d.height → pixel d' x1 y1 = true) := by
  obtain ⟨pts, hpts, hhead, hlast, _, _⟩ := line_points_uint8 fuel x0 y0 x1 y1 hf hx0 hy0 hx1 hy1
  obtain ⟨d', hrun, hc, hp⟩ := plot_points_pixels pts d hd
  have heq := draw_line_eq_plot fuel d x0 y0 x1 y1 pts hpts
  refine ⟨pts, d', hpts, heq, heq.trans hrun, hc, hhead, hlast, ?_, ?_⟩
  · intro hx hy
    rw [hp x0 y0 hx hy]
    exact Or.inr ⟨(x0, y0), List.mem_of_mem_head? (by rw [hhead]; rfl),
      u8_natCast x0 hx0, u8_natCast y0 hy0⟩
  · intro hx hy
    rw [hp x1 y1 hx hy]
    exact Or.inr ⟨(x1, y1), List.mem_of_getLast?_eq_some hlast,
      u8_natCast x1 hx1, u8_natCast y1 hy1⟩

/-- An instance of the theorem on termination: the line from `(0, 0)` to `(15, 7)` on the 16x8
display. -/
theorem draw_line_terminates_witness :
    (WF demo_display ∧ 256 ≤ 256 ∧ 0 < 256 ∧ 0 < 256 ∧ 15 < 256 ∧ 7 < 256) ∧
    ∃ pts d', line_points 256 (0 : Nat) (0 : Nat) (15 : Nat) (7 : Nat) = some pts ∧
      ssd1306_draw_line 256 demo_display (0 : Nat) (0 : Nat) (15 : Nat) (7 : Nat)
        = plot_points demo_display pts ∧
      ssd1306_draw_line 256 demo_display (0 : Nat) (0 : Nat) (15 : Nat) (7 : Nat) = .ok d' ∧
      SameConfig demo_display d' ∧
      pts.head? = some (((0 : Nat) : Int), ((0 : Nat) : Int)) ∧
      pts.getLast? = some (((15 : Nat) : Int), ((7 : Nat) : Int)) ∧
      (0 < demo_display.width → 0 < demo_display.height → pixel d' 0 0 = true) ∧
      (15 < demo_display.width → 7 < demo_display.height → pixel d' 15 7 = true) :=
  ⟨⟨demo_display_wf, by decide, by decide, by decide, by decide, by decide⟩,
    draw_line_terminates demo_display 256 0 0 15 7 demo_display_wf (by decide) (by decide)
      (by decide) (by decide) (by decide)⟩

/-- C17: for end points with coordinates in 0..255 the points plotted by
`ssd1306_draw_line` form a single-pixel-wide 8-connected path: there are exactly
`max(|x1-x0|, |y1-y0|) + 1` of them, and two consecutive points differ by at most 1 in x and at
most 1 in y, are distinct, and differ by exactly 1 in the major-axis coordinate. -/
theorem draw_line_path (fuel x0 y0 x1 y1 : Nat) (hf : 256 ≤ fuel) (hx0 : x0 < 256)
    (hy0 : y0 < 256) (hx1 : x1 < 256) (hy1 : y1 < 256) :
    ∃ pts, line_points fuel x0 y0 x1 y1 = some pts ∧
      (∀ d, ssd1306_draw_line fuel d x0 y0 x1 y1 = plot_points d pts) ∧
      pts.length = max ((x1 : Int) - x0).natAbs ((y1 : Int) - y0).natAbs + 1 ∧
      List.Chain' (fun p q =>
        (q.1 - p.1).natAbs ≤ 1 ∧ (q.2 - p.2).natAbs ≤ 1 ∧ p ≠ q ∧
        (if ((y1 : Int) - y0).natAbs ≤ ((x1 : Int) - x0).natAbs then (q.1 - p.1).natAbs = 1
         else (q.2 - p.2).natAbs = 1)) pts := by
  obtain ⟨pts, hpts, _, _, hxm, hym⟩ := line_points_uint8 fuel x0 y0 x1 y1 hf hx0 hy0 hx1 hy1
  have hsx : (if (x0 : Int) < x1 then (1 : Int) else -1) = 1 ∨
      (if (x0 : Int) < x1 then (1 : Int) else -1) = -1 := by split <;> simp
  have hsy : (if (y0 : Int) < y1 then (1 : Int) else -1) = 1 ∨
      (if (y0 : Int) < y1 then (1 : Int) else -1) = -1 := by split <;> simp
  refine ⟨pts, hpts, fun d => draw_line_eq_plot fuel d x0 y0 x1 y1 pts hpts, ?_, ?_⟩
  · by_cases hmaj : ((y1 : Int) - y0).natAbs ≤ ((x1 : Int) - x0).natAbs
    · rw [(hxm hmaj).1, Nat.max_eq_left hmaj]
    · rw [(hym (by omega)).1, Nat.max_eq_right (by omega)]
  · by_cases hmaj : ((y1 : Int) - y0).natAbs ≤ ((x1 : Int) - x0).natAbs
    · refine List.Chain'.imp ?_ (hxm hmaj).2
      rintro ⟨px, py⟩ ⟨qx, qy⟩ ⟨h1, h2⟩
      simp only [] at h1 h2
      simp only [if_pos hmaj]
      refine ⟨?_, ?_, ?_, ?_⟩
      · rcases hsx with e | e <;> (rw [e] at h1; omega)
      · rcases hsy with e | e <;> (rw [e] at h2; omega)
      · intro heq
        have : px = qx := congrArg Prod.fst heq
        rcases hsx with e | e <;> (rw [e] at h1; omega)
      · rcases hsx with e | e <;> (rw [e] at h1; omega)
    · refine List.Chain'.imp ?_ (hym (by omega)).2
      rintro ⟨px, py⟩ ⟨qx, qy⟩ ⟨h1, h2⟩
      simp only [] at h1 h2
      simp only [if_neg hmaj]
      refine ⟨?_, ?_, ?_, ?_⟩
      · rcases hsx with e | e <;> (rw [e] at h2; omega)
      · rcases hsy with e | e <;> (rw [e] at h1; omega)
      · intro heq
        have : py = qy := congrArg Prod.snd heq
        rcases hsy with e | e <;> (rw [e] at h1; omega)
      · rcases hsy with e | e <;> (rw [e] at h1; omega)

/-- An instance of the theorem on the rasterized path: the line from `(15, 7)` to `(0, 2)`. -/
theorem draw_line_path_witness :
    (256 ≤ 256 ∧ 15 < 256 ∧ 7 < 256 ∧ 0 < 256 ∧ 2 < 256) ∧
    ∃ pts, line_points 256 (15 : Nat) (7 : Nat) (0 : Nat) (2 : Nat) = some pts ∧
      (∀ d, ssd1306_draw_line 256 d (15 : Nat) (7 : Nat) (0 : Nat) (2 : Nat)
        = plot_points d pts) ∧
      pts.length = max (((0 : Nat) : Int) - (15 : Nat)).natAbs
        (((2 : Nat) : Int) - (7 : Nat)).natAbs + 1 ∧
      List.Chain' (fun p q =>
        (q.1 - p.1).natAbs ≤ 1 ∧ (q.2 - p.2).natAbs ≤ 1 ∧ p ≠ q ∧
        (if (((2 : Nat) : Int) - (7 : Nat)).natAbs ≤ (((0 : Nat) : Int) - (15 : Nat)).natAbs
         then (q.1 - p.1).natAbs = 1 else (q.2 - p.2).natAbs = 1)) pts :=
  ⟨⟨by decide, by decide, by decide, by decide, by decide⟩,
    draw_line_path 256 15 7 0 2 (by decide) (by decide) (by decide) (by decide) (by decide)⟩

/-- Two well-formed displays with the same configuration and the same pixels are equal. -/
theorem display_ext (d1 d2 : ssd1306_t) (h1 : WF d1) (h12 : SameConfig d1 d2)
    (hp : ∀ px py, px < d1.width → py < d1.height → pixel d2 px py = pixel d1 px py) :
    d2 = d1 := by
  obtain ⟨hw, hh, h8, buf1, hb1, hlen1, hbytes1⟩ := h1
  obtain ⟨⟨_, _, _, buf2, hb2, hlen2, hbytes2⟩, ew, eh, ea, ei, ev⟩ := h12
  have hbuf : buf2 = buf1 := by
    apply List.ext_getElem
    · rw [hlen1, hlen2, ew, eh]
    · intro i hi2 hi1
      have hg1 : buf1.getD i 0 = buf1[i] := by
        rw [List.getD_eq_getElem?_getD, List.getElem?_eq_getElem hi1]; rfl
      have hg2 : buf2.getD i 0 = buf2[i] := by
        rw [List.getD_eq_getElem?_getD, List.getElem?_eq_getElem hi2]; rfl
      have hlt1 : buf1[i] < 256 := hbytes1 _ (List.getElem_mem hi1)
      have hlt2 : buf2[i] < 256 := hbytes2 _ (List.getElem_mem hi2)
      rw [hlen1] at hi1
      obtain ⟨k, hk⟩ : ∃ k, d1.height = 8 * k := ⟨d1.height / 8, by omega⟩
      have hsz : d1.width * d1.height / 8 = k * d1.width := by
        rw [hk, show d1.width * (8 * k) = 8 * (k * d1.width) by ring]
        exact Nat.mul_div_cancel_left _ (by norm_num)
      rw [hsz] at hi1
      have hwpos : 0 < d1.width := by
        rcases Nat.eq_zero_or_pos d1.width with h0 | h0
        · rw [h0] at hi1; simp at hi1
        · exact h0
      have hq : i / d1.width < k := by
        rw [Nat.div_lt_iff_lt_mul hwpos]; exact hi1
      apply Nat.eq_of_testBit_eq
      intro j
      by_cases hj : j < 8
      · have hpx : i % d1.width < d1.width := Nat.mod_lt _ hwpos
        have hpy : 8 * (i / d1.width) + j < d1.height := by omega
        have := hp (i % d1.width) (8 * (i / d1.width) + j) hpx hpy
        simp only [pixel, hb1, hb2, ew] at this
        have e1 : (8 * (i / d1.width) + j) / 8 = i / d1.width := by omega
        have e2 : (8 * (i / d1.width) + j) % 8 = j := by omega
        have e3 : i / d1.width * d1.width + i % d1.width = i := by
          rw [Nat.mul_comm]; exact Nat.div_add_mod i d1.width
        rw [e1, e2, e3, hg1, hg2] at this
        exact this
      · have hpow : 256 ≤ 2 ^ j := by
          calc 256 = 2 ^ 8 := by norm_num
            _ ≤ 2 ^ j := Nat.pow_le_pow_right (by norm_num) (by omega)
        rw [Nat.testBit_lt_two_pow (by omega), Nat.testBit_lt_two_pow (by omega)]
  cases d1
  cases d2
  simp only [ssd1306_t.mk.injEq] at *
  simp only [hb1, hb2] at *
  subst hbuf
  exact ⟨eh, ew, ea, ei, rfl, ev⟩

/-- C18 (amended): on horizontal and vertical segments with `uint8_t` end points,
the only segments `ssd1306_draw_empty_rectangle` draws, `ssd1306_draw_line` is direction-agnostic:
drawing from `(x0, y0)` to `(x1, y1)` and from `(x1, y1)` to `(x0, y0)` gives the same display,
whatever the starting buffer. -/
theorem draw_line_axis_aligned_symmetric (d : ssd1306_t) (fuel x0 y0 x1 y1 : Nat) (hd : WF d)
    (hf : 256 ≤ fuel) (hx0 : x0 < 256) (hy0 : y0 < 256) (hx1 : x1 < 256) (hy1 : y1 < 256)
    (haxis : y0 = y1 ∨ x0 = x1) :
    ∃ d', ssd1306_draw_line fuel d x0 y0 x1 y1 = .ok d' ∧
      ssd1306_draw_line fuel d x1 y1 x0 y0 = .ok d' := by
  rcases haxis with rfl | rfl
  · obtain ⟨d1, r1, c1, p1⟩ := draw_line_horizontal d hd fuel x0 x1 y0 hf hx0 hx1 hy0
    obtain ⟨d2, r2, c2, p2⟩ := draw_line_horizontal d hd fuel x1 x0 y0 hf hx1 hx0 hy0
    have e : d2 = d1 := by
      apply display_ext d1 d2 c1.1
        ⟨c2.1, by rw [c2.2.1, c1.2.1], by rw [c2.2.2.1, c1.2.2.1], by rw [c2.2.2.2.1, c1.2.2.2.1],
          by rw [c2.2.2.2.2.1, c1.2.2.2.2.1], by rw [c2.2.2.2.2.2, c1.2.2.2.2.2]⟩
      intro px py hpx hpy
      rw [c1.2.1] at hpx
      rw [c1.2.2.1] at hpy
      rw [p1 px py hpx hpy, p2 px py hpx hpy]
      by_cases a : py = y0 ∧ ((x0 ≤ px ∧ px ≤ x1) ∨ (x1 ≤ px ∧ px ≤ x0))
      · rw [if_pos a, if_pos (by omega)]
      · rw [if_neg a, if_neg (by omega)]
    exact ⟨d1, r1, by rw [r2, e]⟩
  · obtain ⟨d1, r1, c1, p1⟩ := draw_line_vertical d hd fuel x0 y0 y1 hf hx0 hy0 hy1
    obtain ⟨d2, r2, c2, p2⟩ := draw_line_vertical d hd fuel x0 y1 y0 hf hx0 hy1 hy0
    have e : d2 = d1 := by
      apply display_ext d1 d2 c1.1
        ⟨c2.1, by rw [c2.2.1, c1.2.1], by rw [c2.2.2.1, c1.2.2.1], by rw [c2.2.2.2.1, c1.2.2.2.1],
          by rw [c2.2.2.2.2.1, c1.2.2.2.2.1], by rw [c2.2.2.2.2.2, c1.2.2.2.2.2]⟩
      intro px py hpx hpy
      rw [c1.2.1] at hpx
      rw [c1.2.2.1] at hpy
      rw [p1 px py hpx hpy, p2 px py hpx hpy]
      by_cases a : px = x0 ∧ ((y0 ≤ py ∧ py ≤ y1) ∨ (y1 ≤ py ∧ py ≤ y0))
      · rw [if_pos a, if_pos (by omega)]
      · rw [if_neg a, if_neg (by omega)]
    exact ⟨d1, r1, by rw [r2, e]⟩

/-- An instance of the theorem on symmetric lines: the segment between `(2, 5)` and `(12, 5)`
on the 16x8 display. -/
theorem draw_line_axis_aligned_symmetric_witness :
    (WF demo_display ∧ 256 ≤ 256 ∧ 2 < 256 ∧ 5 < 256 ∧ 12 < 256 ∧ 5 < 256 ∧ (5 = 5 ∨ 2 = 12)) ∧
    ∃ d', ssd1306_draw_line 256 demo_display (2 : Nat) (5 : Nat) (12 : Nat) (5 : Nat) = .ok d' ∧
      ssd1306_draw_line 256 demo_display (12 : Nat) (5 : Nat) (2 : Nat) (5 : Nat) = .ok d' :=
  ⟨⟨demo_display_wf, by decide, by decide, by decide, by decide, by decide, by decide⟩,
    draw_line_axis_aligned_symmetric demo_display 256 2 5 12 5 demo_display_wf (by decide)
      (by decide) (by decide) (by decide) (by decide) (by decide)⟩

/-- C18 fails as stated: on the 16x8 all-off display the line from `(0, 0)` to `(2, 1)` turns
on `(0,0)`, `(1,0)`, `(2,1)`, the line from `(2, 1)` to `(0, 0)` turns on `(2,1)`, `(1,1)`,
`(0,0)`: the two framebuffers differ at `(1, 0)` and `(1, 1)`. -/
theorem draw_line_asymmetric_counterexample :
    ssd1306_draw_line 256 demo_display 0 0 2 1 =
      .ok { demo_display with buffer := some [1, 1, 2, 0, 0, 0, 0, 0, 0, 0, 0, 0, 0, 0, 0, 0] } ∧
    ssd1306_draw_line 256 demo_display 2 1 0 0 =
      .ok { demo_display with buffer := some [1, 2, 2, 0, 0, 0, 0, 0, 0, 0, 0, 0, 0, 0, 0, 0] } ∧
    ssd1306_draw_line 256 demo_display 0 0 2 1 ≠ ssd1306_draw_line 256 demo_display 2 1 0 0 ∧
    line_points 256 0 0 2 1 = some [(0, 0), (1, 0), (2, 1)] ∧
    line_points 256 2 1 0 0 = some [(2, 1), (1, 1), (0, 0)] := by
  have h1 : ssd1306_draw_line 256 demo_display 0 0 2 1 =
      .ok { demo_display with buffer := some [1, 1, 2, 0, 0, 0, 0, 0, 0, 0, 0, 0, 0, 0, 0, 0] } :=
    rfl
  have h2 : ssd1306_draw_line 256 demo_display 2 1 0 0 =
      .ok { demo_display with buffer := some [1, 2, 2, 0, 0, 0, 0, 0, 0, 0, 0, 0, 0, 0, 0, 0] } :=
    rfl
  refine ⟨h1, h2, ?_, rfl, rfl⟩
  rw [h1, h2]
  intro h
  have := Except.ok.inj h
  exact absurd this (by decide)

/-- C19 (code defect): the `int16_t` coordinates of `ssd1306_draw_line` are converted
to `uint8_t` when they are passed to `ssd1306_draw_pixel`. On the 16x8 all-off display the line
from `(254, 3)` to `(258, 3)` rasterizes the points `(254,3)` .. `(258,3)`, all with
`px ≥ width`; the points `(256,3)`, `(257,3)`, `(258,3)` are redirected to the columns 0, 1, 2
and switch the pixels `(0,3)`, `(1,3)`, `(2,3)` on. -/
theorem draw_line_redirects_out_of_range :
    line_points 256 254 3 258 3 = some [(254, 3), (255, 3), (256, 3), (257, 3), (258, 3)] ∧
    ssd1306_draw_line 256 demo_display 254 3 258 3 =
      .ok { demo_display with buffer := some [8, 8, 8, 0, 0, 0, 0, 0, 0, 0, 0, 0, 0, 0, 0, 0] } ∧
    demo_display.width ≤ 254 ∧
    pixel demo_display 0 3 = false ∧
    pixel { demo_display with
            buffer := some [8, 8, 8, 0, 0, 0, 0, 0, 0, 0, 0, 0, 0, 0, 0, 0] } 0 3 = true :=
  ⟨rfl, rfl, by decide, by decide, by decide⟩

/-! ## Buffer safety -/

/-- A nested counting loop whose body is one call of `ssd1306_draw_pixel` stays inside the
buffer. -/
theorem nested_loop_safe (body : ssd1306_t → Nat → Nat → Except Fault ssd1306_t)
    (X Y : Nat → Nat → Nat) (V : Nat → Nat → Bool) (xlo xhi ylo yhi : Nat)
    (hbody : ∀ d k l, xlo ≤ k → k < xhi → ylo ≤ l → l < yhi →
      body d k l = ssd1306_draw_pixel d (X k l) (Y k l) (V k l))
    (d : ssd1306_t) (hd : WF d) :
    ∃ d', for_loop xlo xhi (fun d x => for_loop ylo yhi (fun d y => body d x y) d) d = .ok d' ∧
      SameConfig d d' := by
  apply for_loop_inv (fun _ d' => SameConfig d d') _ xhi (xhi - xlo) xlo d rfl
    (SameConfig.refl d hd)
  intro k d1 hk1 hk2 hc1
  apply for_loop_inv (fun _ d' => SameConfig d d') _ yhi (yhi - ylo) ylo d1 rfl hc1
  intro l d2 hl1 hl2 hc2
  obtain ⟨d3, hrun, hc3, _⟩ := draw_pixel_pixel d2 (X k l) (Y k l) (V k l) hc2.1
  exact ⟨d3, (hbody d2 k l hk1 hk2 hl1 hl2).trans hrun, hc2.trans hc3⟩

/-- The loop of `ssd1306_draw_line` stays inside the buffer for all `int16_t` values: it
returns a display of the same configuration or runs out of iterations. -/
theorem draw_line_loop_safe (x1 y1 dx dy sx sy : Int) :
    ∀ (fuel : Nat) (d0 d : ssd1306_t) (x0 y0 err : Int), SameConfig d0 d →
      (∃ d', draw_line_loop x1 y1 dx dy sx sy fuel d x0 y0 err = .ok d' ∧ SameConfig d0 d') ∨
      draw_line_loop x1 y1 dx dy sx sy fuel d x0 y0 err = .error .out_of_fuel := by
  intro fuel
  induction fuel with
  | zero =>
    intro d0 d x0 y0 err _
    right
    rw [draw_line_loop]
  | succ fuel ih =>
    intro d0 d x0 y0 err hc
    obtain ⟨d1, hrun, hc1, _⟩ := draw_pixel_pixel d (u8 x0) (u8 y0) true hc.1
    by_cases hend : x0 = x1 ∧ y0 = y1
    · left
      refine ⟨d1, ?_, hc.trans hc1⟩
      rw [draw_line_loop]
      simp only [hrun, if_pos hend]
    · rw [draw_line_loop_step _ _ _ _ _ _ _ _ _ _ _ _ hrun hend]
      exact ih d0 d1 _ _ _ (hc.trans hc1)

theorem draw_line_safe (fuel : Nat) (d : ssd1306_t) (x0 y0 x1 y1 : Int) (hd : WF d) :
    (∃ d', ssd1306_draw_line fuel d x0 y0 x1 y1 = .ok d' ∧ SameConfig d d') ∨
    ssd1306_draw_line fuel d x0 y0 x1 y1 = .error .out_of_fuel :=
  draw_line_loop_safe _ _ _ _ _ _ fuel d d x0 y0 _ (SameConfig.refl d hd)

theorem draw_empty_rectangle_safe (fuel : Nat) (d : ssd1306_t) (x0 y0 x1 y1 : Nat) (hd : WF d) :
    (∃ d', ssd1306_draw_empty_rectangle fuel d x0 y0 x1 y1 = .ok d' ∧ SameConfig d d') ∨
    ssd1306_draw_empty_rectangle fuel d x0 y0 x1 y1 = .error .out_of_fuel := by
  unfold ssd1306_draw_empty_rectangle
  rcases draw_line_safe fuel d x0 y0 x1 y0 hd with ⟨d1, r1, c1⟩ | e1
  · rw [r1, bind_ok_eq]
    rcases draw_line_safe fuel d1 x0 y1 x1 y1 c1.1 with ⟨d2, r2, c2⟩ | e2
    · rw [r2, bind_ok_eq]
      rcases draw_line_safe fuel d2 x0 y0 x0 y1 c2.1 with ⟨d3, r3, c3⟩ | e3
      · rw [r3, bind_ok_eq]
        rcases draw_line_safe fuel d3 x1 y0 x1 y1 c3.1 with ⟨d4, r4, c4⟩ | e4
        · exact Or.inl ⟨d4, r4, ((c1.trans c2).trans c3).trans c4⟩
        · exact Or.inr e4
      · right; rw [e3]; rfl
    · right; rw [e2]; rfl
  · right; rw [e1]; rfl

theorem draw_char_safe (font : List Nat) (d : ssd1306_t) (c x y : Nat) (hd : WF d)
    (hf : FontOK font) :
    ∃ d', ssd1306_draw_char font d c x y = .ok d' ∧ SameConfig d d' := by
  rw [draw_char_unfold font d c x y hf]
  split
  · exact ⟨d, rfl, SameConfig.refl d hd⟩
  · exact nested_loop_safe (glyph_cell font c x y)
      (fun col _ => (x + col) % 256) (fun _ row => (y + row) % 256)
      (fun col row => (glyph_column font c col).testBit row)
      0 (glyph_width font) 0 (glyph_height font)
      (fun d' col row _ _ _ hrow =>
        glyph_cell_eq font c x y d' col row (by have := hf.2.2.2.2; omega))
      d hd

theorem draw_string_safe (font : List Nat) (hf : FontOK font) (y : Nat) :
    ∀ (text : List Nat) (d : ssd1306_t) (x : Nat), WF d →
      ∃ d', ssd1306_draw_string font d text x y = .ok d' ∧ SameConfig d d' := by
  intro text
  induction text with
  | nil => intro d x hd; exact ⟨d, draw_string_nil font d x y, SameConfig.refl d hd⟩
  | cons c rest ih =>
    intro d x hd
    by_cases hc : c = 0
    · subst hc
      exact ⟨d, draw_string_nul font d rest x y, SameConfig.refl d hd⟩
    · obtain ⟨d1, r1, c1⟩ := draw_char_safe font d c x y hd hf
      obtain ⟨d2, r2, c2⟩ := ih d1 ((x + font.getD 1 0 + 1) % 256) c1.1
      refine ⟨d2, ?_, c1.trans c2⟩
      rw [draw_string_cons font d d1 c rest x y hc (by have := hf.1; omega) r1]
      exact r2


/-- For a height that is not a multiple of 8 the last in-bounds pixel is addressed beyond a
buffer of `width*height/8` bytes. -/
theorem byte_index_overflow (w h : Nat) (hw : 1 ≤ w) (h8 : h % 8 ≠ 0) :
    w - 1 < w ∧ h - 1 < h ∧ w * h / 8 ≤ ((h - 1) / 8) * w + (w - 1) := by
  have hq : (h - 1) / 8 = h / 8 := by omega
  have hmul : w * h = 8 * (h / 8 * w) + (h % 8) * w := by
    conv_lhs => rw [← Nat.div_add_mod h 8]
    ring
  have hr : (h % 8) * w ≤ 7 * w := Nat.mul_le_mul_right w (by omega)
  refine ⟨by omega, by omega, ?_⟩
  rw [hq, hmul]
  omega

/-- C20: for a display whose height is a multiple of 8 and whose buffer has
`width*height/8` bytes, every `(x, y)` that passes the bounds check of `ssd1306_draw_pixel` maps
to a byte index below `width*height/8`, and no drawing primitive (pixel, line, rectangles,
clear, char, string) ever accesses the buffer outside its bounds or changes its length: each
returns a display of the same configuration with a buffer of `width*height/8` bytes (the line
primitives may only run out of iterations). The divisibility is necessary: when the height is
not a multiple of 8, the in-bounds pixel `(width-1, height-1)` maps to an index of at least
`width*height/8` and plotting it leaves the buffer. -/
theorem buffer_index_safety (d : ssd1306_t) (hd : WF d) :
    (∀ x y, x < d.width → y < d.height → (y / 8) * d.width + x < d.width * d.height / 8) ∧
    (∀ x y on_, ∃ d', ssd1306_draw_pixel d x y on_ = .ok d' ∧ SameConfig d d') ∧
    (∀ fuel (x0 y0 x1 y1 : Int),
      (∃ d', ssd1306_draw_line fuel d x0 y0 x1 y1 = .ok d' ∧ SameConfig d d') ∨
      ssd1306_draw_line fuel d x0 y0 x1 y1 = .error .out_of_fuel) ∧
    (∀ fuel (x0 y0 x1 y1 : Nat),
      (∃ d', ssd1306_draw_empty_rectangle fuel d x0 y0 x1 y1 = .ok d' ∧ SameConfig d d') ∨
      ssd1306_draw_empty_rectangle fuel d x0 y0 x1 y1 = .error .out_of_fuel) ∧
    (∀ x0 y0 x1 y1,
      ∃ d', ssd1306_draw_filled_rectangle d x0 y0 x1 y1 = .ok d' ∧ SameConfig d d') ∧
    (∀ x0 y0 x1 y1, ∃ d', ssd1306_clear_rectangle d x0 y0 x1 y1 = .ok d' ∧ SameConfig d d') ∧
    (∃ d', ssd1306_clear_display d = .ok d' ∧ SameConfig d d') ∧
    (∀ font, FontOK font → ∀ c x y,
      ∃ d', ssd1306_draw_char font d c x y = .ok d' ∧ SameConfig d d') ∧
    (∀ font, FontOK font → ∀ text x y,
      ∃ d', ssd1306_draw_string font d text x y = .ok d' ∧ SameConfig d d') ∧
    (∀ d', SameConfig d d' →
      ∃ buf, d'.buffer = some buf ∧ buf.length = d.width * d.height / 8) ∧
    (∀ (d2 : ssd1306_t) (buf : List Nat), 1 ≤ d2.width → d2.width < 256 → d2.height < 256 →
      d2.height % 8 ≠ 0 → d2.buffer = some buf → buf.length = d2.width * d2.height / 8 →
      d2.width - 1 < d2.width ∧ d2.height - 1 < d2.height ∧
      d2.width * d2.height / 8 ≤ ((d2.height - 1) / 8) * d2.width + (d2.width - 1) ∧
      ssd1306_draw_pixel d2 (d2.width - 1) (d2.height - 1) true = .error .out_of_bounds) := by
  refine ⟨?_, ?_, ?_, ?_, ?_, ?_, ?_, ?_, ?_, ?_, ?_⟩
  · intro x y hx hy
    exact byte_index_lt d.width d.height x y hx hy hd.2.2.1
  · intro x y on_
    obtain ⟨d', hrun, hc, _⟩ := draw_pixel_pixel d x y on_ hd
    exact ⟨d', hrun, hc⟩
  · intro fuel x0 y0 x1 y1
    exact draw_line_safe fuel d x0 y0 x1 y1 hd
  · intro fuel x0 y0 x1 y1
    exact draw_empty_rectangle_safe fuel d x0 y0 x1 y1 hd
  · intro x0 y0 x1 y1
    unfold ssd1306_draw_filled_rectangle
    exact nested_loop_safe (fun d x y => ssd1306_draw_pixel d (x % 256) (y % 256) true)
      (fun x _ => x % 256) (fun _ y => y % 256) (fun _ _ => true) _ _ _ _
      (fun _ _ _ _ _ _ _ => rfl) d hd
  · intro x0 y0 x1 y1
    unfold ssd1306_clear_rectangle
    exact nested_loop_safe (fun d x y => ssd1306_draw_pixel d (x % 256) (y % 256) false)
      (fun x _ => x % 256) (fun _ y => y % 256) (fun _ _ => false) _ _ _ _
      (fun _ _ _ _ _ _ _ => rfl) d hd
  · obtain ⟨hw, hh, h8, buf, hb, hlen, _⟩ := hd
    refine ⟨_, clear_display_eq d buf hb hlen, ⟨hw, hh, h8, _, rfl, by simp, ?_⟩,
      rfl, rfl, rfl, rfl, rfl⟩
    intro b hbm
    rw [(List.mem_replicate.mp hbm).2]
    norm_num
  · intro font hf c x y
    exact draw_char_safe font d c x y hd hf
  · intro font hf text x y
    exact draw_string_safe font hf y text d x hd
  · rintro d' ⟨⟨_, _, _, buf, hb, hlen, _⟩, ew, eh, _⟩
    exact ⟨buf, hb, by rw [hlen, ew, eh]⟩
  · intro d2 buf hw1 hw hh h8 hb hlen
    obtain ⟨h1, h2, h3⟩ := byte_index_overflow d2.width d2.height hw1 h8
    refine ⟨h1, h2, h3, ?_⟩
    have hs := byte_index_small d2.width d2.height (d2.width - 1) (d2.height - 1) hw hh h1 h2
    unfold ssd1306_draw_pixel
    rw [if_neg (by omega)]
    simp only [hb, Nat.mod_eq_of_lt hs]
    rw [if_neg (by omega)]

/-- An instance of the theorem on buffer safety: the 16x8 display is addressed within its 16
bytes and a line across it returns; on the 16x12 display pixel `(15, 11)` is addressed at byte
31 of 24. -/
theorem buffer_index_safety_witness :
    WF demo_display ∧
    (∀ x y, x < demo_display.width → y < demo_display.height →
      (y / 8) * demo_display.width + x < demo_display.width * demo_display.height / 8) ∧
    ((∃ d', ssd1306_draw_line 300 demo_display (-5) 2 40 9 = .ok d' ∧
        SameConfig demo_display d') ∨
      ssd1306_draw_line 300 demo_display (-5) 2 40 9 = .error .out_of_fuel) ∧
    ssd1306_draw_pixel demo_display_12 (demo_display_12.width - 1)
      (demo_display_12.height - 1) true = .error .out_of_bounds :=
  ⟨demo_display_wf, (buffer_index_safety demo_display demo_display_wf).1,
    (buffer_index_safety demo_display demo_display_wf).2.2.1 300 (-5) 2 40 9,
    ((buffer_index_safety demo_display demo_display_wf).2.2.2.2.2.2.2.2.2.2
      demo_display_12 (List.replicate 24 0) (by decide) (by decide) (by decide) (by decide)
      rfl (by decide)).2.2.2⟩

end SSD1306
